import Mathlib

/-! Descriptive statistics of a slice of samples (package `stats`, file `basic.go`).

A shallow embedding of `SlotsFloat64.Stats` and of the `sort.Interface`
methods of `sortFloat64`, followed by theorems about them.

The method is embedded twice, statement by statement.

* `SlotsFloat64.Stats` is the reading over exact arithmetic: `float64` samples
  are elements of an arbitrary linearly ordered field `α` (no NaN, no
  rounding), `math.Sqrt` is the parameter `sqrt`, and Go `int` values (`len`,
  the percentile indices) are natural numbers.  Statements about order,
  membership and counting, and statements scoped to exact arithmetic, are
  proved on it.
* `SlotsFloat64.StatsOn` is the same method on a `Target`, which supplies the
  `float64` operations, the width of `int` (products wrap around, `/`
  truncates) and the library's `sort.Sort`.  `Target.go64` and `Target.go32`
  are IEEE 754 binary64 arithmetic with a 64-bit and a 32-bit `int`;
  `Target.exact` gives back the first reading (`StatsOn_exact`).  What rounding
  or wrap-around decides is proved on it.

In both, the pointer `&slots[i]` is the index `i`, the nil pointer is `none`,
and a run-time panic (index out of range, nil dereference) is the outcome
`none` of the `Option`-valued operations.
-/

namespace GoStats

/-- Stats holds statistical values computed from an array of numbers. -/
structure Stats (α : Type) where
  Len : Nat
  Mean : α
  StdDev : α
  Variance : α
  Minimum : α
  Maximum : α
  Percentile25 : α
  Percentile50 : α
  Percentile75 : α
  Percentile95 : α
  Percentile99 : α
  deriving DecidableEq, Repr

/-- Error values of the package; `EMPTY` is its only one. -/
inductive Error where
  | EMPTY
  deriving DecidableEq, Repr

/-- A `*float64` pointing into the caller's slice: `some i` is `&slots[i]`,
`none` is nil. -/
abbrev Ptr := Option Nat

/-- The memory `Stats` works on: the backing array of the caller's slice and
the backing array of the local `sorted` slice of pointers. -/
structure Heap (α : Type) where
  slots : List α
  sorted : List Ptr
  deriving DecidableEq, Repr

/-- What a call of `Stats` leaves behind: the two results (`stats` is a
pointer, `none` being nil; `err` is `none` for the nil error) and the contents
of the caller's slice after the call. -/
structure Returned (α : Type) where
  stats : Option (Stats α)
  err : Option Error
  slots : List α
  deriving DecidableEq, Repr

/-- The value `new(Stats)` points to: every field zero. -/
def Stats.zero (α : Type) [Zero α] : Stats α :=
  { Len := 0, Mean := 0, StdDev := 0, Variance := 0, Minimum := 0, Maximum := 0,
    Percentile25 := 0, Percentile50 := 0, Percentile75 := 0, Percentile95 := 0,
    Percentile99 := 0 }

section Code

variable {α : Type} [LinearOrderedField α]

/-- Dereference `*p` in the caller's slice; nil and dangling pointers panic. -/
def deref (slots : List α) : Ptr → Option α
  | none => none
  | some i => slots[i]?

/-- The read `*(sorted[k])`: index the pointer slice, then dereference. -/
def Heap.read (h : Heap α) (k : Nat) : Option α :=
  h.sorted[k]? >>= deref h.slots

/-- Method `func (slots sortFloat64) Len() int`. -/
def sortFloat64.Len (h : Heap α) : Nat :=
  h.sorted.length

/-- Method `func (slots sortFloat64) Less(i, j int) bool`:
`*(slots[i]) < *(slots[j])`. -/
def sortFloat64.Less (h : Heap α) (i j : Nat) : Option Bool := do
  let vi ← h.read i
  let vj ← h.read j
  pure (decide (vi < vj))

/-- Method `func (slots sortFloat64) Swap(i, j int)`:
`slots[i], slots[j] = slots[j], slots[i]`.  Both operands are read first, then
position `i` and position `j` of the pointer slice are written. -/
def sortFloat64.Swap (h : Heap α) (i j : Nat) : Option (Heap α) := do
  let pi ← h.sorted[i]?
  let pj ← h.sorted[j]?
  pure { h with sorted := (h.sorted.set i pj).set j pi }

/-- Inner loop of the library's insertion sort,
`for j := i; j > 0 && data.Less(j, j-1); j-- { data.Swap(j, j-1) }`,
started at `j`. -/
def insertDown (h : Heap α) : Nat → Option (Heap α)
  | 0 => some h
  | j + 1 => do
    if (← sortFloat64.Less h (j + 1) j) then
      insertDown (← sortFloat64.Swap h (j + 1) j) j
    else
      pure h

/-- Outer loop of the library's insertion sort, `for i := ...; i < n; i++`,
with `k` iterations left. -/
def insertionSortLoop (h : Heap α) (i : Nat) : Nat → Option (Heap α)
  | 0 => some h
  | k + 1 => do
    let h1 ← insertDown h i
    insertionSortLoop h1 (i + 1) k

/-- The call `sort.Sort(sorted)`.  The standard library is not part of the package; it
is modelled by the library's `insertionSort(data, 0, n)`, which touches the
data only through `Len`, `Less` and `Swap`.  The library runs this on short
slices and another comparison sort with the same contract (ascending for
`Less`, not stable) on longer ones; `read_of_sort_contract` below shows that
the values read through the sorted pointers depend on that contract only. -/
def sortSort (h : Heap α) : Option (Heap α) :=
  insertionSortLoop h 1 (sortFloat64.Len h - 1)

/-- The loop `for i, v := range slots { sorted[i] = &(slots[i]); sum += v;
sumsq += v * v }`, on the samples still to visit, `i` being the index of the
first of them.  The state is `(sorted, sum, sumsq)`.  The additions and the
product are exact; `rangeLoopOn` is the loop with a target's rounding
operations. -/
def rangeLoop : List α → Nat → List Ptr × α × α → Option (List Ptr × α × α)
  | [], _, st => some st
  | v :: vs, i, (sorted, sum, sumsq) =>
    if i < sorted.length then
      rangeLoop vs (i + 1) (sorted.set i (some i), sum + v, sumsq + v * v)
    else
      none

/-- Method `func (slots SlotsFloat64) Stats() (stats *Stats, err error)`, read
over exact arithmetic and unbounded integers; `SlotsFloat64.StatsOn` is the
method with a target's `float64` operations and `int` width. -/
def SlotsFloat64.Stats (sqrt : α → α) (slots : List α) : Option (Returned α) := do
  let stats : GoStats.Stats α := Stats.zero α
  let stats := { stats with Len := slots.length }
  if stats.Len = 0 then
    return { stats := some stats, err := some Error.EMPTY, slots := slots }
  let entries : α := (stats.Len : α)
  let sorted : List Ptr := List.replicate stats.Len none
  let (sorted, sum, sumsq) ← rangeLoop slots 0 (sorted, 0, 0)
  let stats :=
    if entries > 1 then
      let variance := (1 / (entries - 1)) * (sumsq - (1 / entries) * sum * sum)
      { stats with Variance := variance, StdDev := sqrt variance }
    else
      stats
  let h ← sortSort { slots := slots, sorted := sorted }
  let stats := { stats with Mean := sum / entries }
  let stats := { stats with Minimum := (← h.read 0) }
  let stats := { stats with Maximum := (← h.read (stats.Len - 1)) }
  let stats := { stats with Percentile25 := (← h.read ((stats.Len * 25) / 100)) }
  let stats := { stats with Percentile50 := (← h.read ((stats.Len * 50) / 100)) }
  let stats := { stats with Percentile75 := (← h.read ((stats.Len * 75) / 100)) }
  let stats := { stats with Percentile95 := (← h.read ((stats.Len * 95) / 100)) }
  let stats := { stats with Percentile99 := (← h.read ((stats.Len * 99) / 100)) }
  return { stats := some stats, err := none, slots := h.slots }

end Code


/-! ## Pure description of the sort on the list of addresses -/

section Pure

variable {α : Type} [LinearOrderedField α]

/-- The sample stored at address `a` (zero outside the slice). -/
def key (slots : List α) (a : Nat) : α :=
  slots.getD a 0

/-- Effect of `insertDown` on the addresses: `x` travels left through the
reversed left part `R`; `M` collects the addresses it has passed. -/
def insPre (slots : List α) (x : Nat) : List Nat → List Nat → List Nat
  | [], M => x :: M
  | b :: R, M =>
    if key slots x < key slots b then insPre slots x R (b :: M)
    else (b :: R).reverse ++ x :: M

/-- Effect of `insertionSortLoop` on the addresses: `P` is the part already
in order, the second list is still to be inserted. -/
def sortPure (slots : List α) : List Nat → List Nat → List Nat
  | P, [] => P
  | P, x :: Q => sortPure slots (insPre slots x P.reverse []) Q

/-- Addresses in the order `sort.Sort` leaves them in. -/
def sortedAddrs (slots : List α) : List Nat :=
  match List.range slots.length with
  | [] => []
  | p :: Q => sortPure slots [p] Q

/-- Value of `sum` after the loop over `slots`: the samples added up in input
order, starting from zero. -/
def accSum (slots : List α) : α :=
  slots.foldl (fun s v => s + v) 0

/-- Value of `sumsq` after the loop over `slots`: the squares of the samples
added up in input order, starting from zero. -/
def accSumsq (slots : List α) : α :=
  slots.foldl (fun q v => q + v * v) 0

/-- Arithmetic average as the specification words it: the sum of the samples
divided by their number. -/
def specMean (slots : List α) : α :=
  slots.sum / (slots.length : α)

/-- Sample variance with Bessel's correction as the specification words it: the
sum of the squared deviations from the mean, divided by `count - 1`. -/
def specSampleVariance (slots : List α) : α :=
  (slots.map (fun x => (x - specMean slots) ^ 2)).sum / ((slots.length : α) - 1)

/-- Samples in the order of the sorted pointers. -/
def sortedVals (slots : List α) : List α :=
  (sortedAddrs slots).map (key slots)

end Pure

/-! ## The same method on a concrete target

`Stats` above reads the `float64` operations as the operations of an exact
ordered field and Go `int` as the unbounded integers.  `StatsOn` is the same
method with both made explicit: the `float64` operations, the width of `int`
and the library's `sort.Sort` are taken from a `Target`.  `Target.exact` gives
back the exact reading (`StatsOn_exact`); `Target.go64` and `Target.go32` are
IEEE 754 binary64 arithmetic with a 64-bit and a 32-bit `int`.

A finite `float64` is the rational number it denotes, so comparisons are those
of `ℚ`.  Every operation rounds its exact result to the nearest binary64 value,
ties to even, with gradual underflow.  Overflow to infinity and NaN are not
modelled (the specification leaves non-finite values out of scope). -/

section Target

/-- Round half to even of the fraction `n / d`, for `d > 0`. -/
def roundHalfEven (n d : Nat) : Nat :=
  let q := n / d
  let r := n % d
  if 2 * r < d then q
  else if d < 2 * r then q + 1
  else if q % 2 = 0 then q else q + 1

/-- The fraction `(n / d) / 2 ^ x` as numerator and denominator. -/
def scaleFrac (n d : Nat) (x : Int) : Nat × Nat :=
  if 0 ≤ x then (n, d * 2 ^ x.toNat) else (n * 2 ^ (-x).toNat, d)

/-- Halving loop behind `log2Nat`: the number of times `n` can be halved before
it drops below 2, with the first argument bounding the number of steps. -/
def log2Fuel : Nat → Nat → Nat
  | 0, _ => 0
  | fuel + 1, n => if n < 2 then 0 else log2Fuel fuel (n / 2) + 1

/-- The binary logarithm `⌊log₂ n⌋` of a natural number (0 for `n = 0`). -/
def log2Nat (n : Nat) : Nat :=
  log2Fuel n n

/-- The binary exponent `⌊log₂ (n / d)⌋` of a positive fraction. -/
def log2Frac (n d : Nat) : Int :=
  let e0 : Int := (log2Nat n : Int) - (log2Nat d : Int)
  let p := scaleFrac n d e0
  if p.1 < p.2 then e0 - 1 else e0

/-- The rational `m * 2 ^ x`. -/
def timesPow2 (m : Nat) (x : Int) : ℚ :=
  if 0 ≤ x then ((m * 2 ^ x.toNat : Nat) : ℚ) else mkRat (m : Int) (2 ^ (-x).toNat)

/-- Rounding of a rational to the nearest binary64 value: 53 significant bits,
ties to even, the least exponent of the last place being `-1074`. -/
def roundFloat64 (q : ℚ) : ℚ :=
  if q = 0 then 0
  else
    let n := q.num.natAbs
    let d := q.den
    let x := max (log2Frac n d - 52) (-1074)
    let p := scaleFrac n d x
    let v := timesPow2 (roundHalfEven p.1 p.2) x
    if q < 0 then -v else v

/-- Integer square root by bisection on the bits: the largest `r` extending the
given one by bits below `k` with `r * r ≤ n`. -/
def isqrtAux (n : Nat) : Nat → Nat → Nat
  | 0, r => r
  | k + 1, r =>
    if (r + 2 ^ k) * (r + 2 ^ k) ≤ n then isqrtAux n k (r + 2 ^ k) else isqrtAux n k r

/-- The integer square root `⌊√n⌋`. -/
def isqrt (n : Nat) : Nat :=
  isqrtAux n (log2Nat n / 2 + 1) 0

/-- The library's `math.Sqrt` on a finite `float64`: the binary64 value nearest
to the real square root.  On negative arguments, where the library returns NaN,
the model returns 0. -/
def sqrtFloat64 (q : ℚ) : ℚ :=
  if q ≤ 0 then 0
  else
    let n := q.num.natAbs
    let d := q.den
    let x := log2Frac n d / 2 - 52
    let p := scaleFrac n d (2 * x)
    let m0 := isqrt (p.1 * p.2) / p.2
    let lhs := 4 * p.1
    let rhs := (2 * m0 + 1) * (2 * m0 + 1) * p.2
    let m :=
      if lhs < rhs then m0
      else if rhs < lhs then m0 + 1
      else if m0 % 2 = 0 then m0 else m0 + 1
    timesPow2 m x

/-- Two's complement wrap-around of an exact integer to an `int` of the given
number of bits. -/
def wrapInt (bits : Nat) (x : Int) : Int :=
  (x + 2 ^ (bits - 1)) % 2 ^ bits - 2 ^ (bits - 1)

/-- What `Stats` takes from the platform it runs on: the `float64` operations
it uses (`+`, `-`, `*`, `/`, `math.Sqrt`, the conversion `float64(n)`), the
number of bits of `int`, and the library's `sort.Sort`. -/
structure Target (α : Type) where
  add : α → α → α
  sub : α → α → α
  mul : α → α → α
  div : α → α → α
  sqrt : α → α
  ofInt : Nat → α
  intBits : Nat
  sort : Heap α → Option (Heap α)

/-- Exact arithmetic in an ordered field, a 64-bit `int`, and the insertion
sort as `sort.Sort`. -/
def Target.exact {α : Type} [LinearOrderedField α] (sqrt : α → α) : Target α :=
  { add := fun a b => a + b
    sub := fun a b => a - b
    mul := fun a b => a * b
    div := fun a b => a / b
    sqrt := sqrt
    ofInt := fun n => (n : α)
    intBits := 64
    sort := sortSort }

/-- IEEE 754 binary64 arithmetic, each operation rounded on its own (no fused
multiply-add), with an `int` of the given number of bits, and the insertion
sort as `sort.Sort`. -/
def Target.float64 (bits : Nat) : Target ℚ :=
  { add := fun a b => roundFloat64 (a + b)
    sub := fun a b => roundFloat64 (a - b)
    mul := fun a b => roundFloat64 (a * b)
    div := fun a b => roundFloat64 (a / b)
    sqrt := sqrtFloat64
    ofInt := fun n => roundFloat64 (n : ℚ)
    intBits := bits
    sort := sortSort }

/-- A 64-bit Go target such as amd64 (`int` is 64 bits wide). -/
def Target.go64 : Target ℚ :=
  Target.float64 64

/-- A 32-bit Go target such as 386 (`int` is 32 bits wide). -/
def Target.go32 : Target ℚ :=
  Target.float64 32

variable {α : Type} [LinearOrderedField α]

/-- The read `*(sorted[i])` at an `int` index: a negative index panics, as an
index beyond the length does. -/
def Heap.index (h : Heap α) (i : Int) : Option α :=
  if i < 0 then none else h.read i.toNat

/-- The loop `for i, v := range slots { sorted[i] = &(slots[i]); sum += v;
sumsq += v * v }` with the target's `float64` operations. -/
def rangeLoopOn (T : Target α) : List α → Nat → List Ptr × α × α → Option (List Ptr × α × α)
  | [], _, st => some st
  | v :: vs, i, (sorted, sum, sumsq) =>
    if i < sorted.length then
      rangeLoopOn T vs (i + 1) (sorted.set i (some i), T.add sum v, T.add sumsq (T.mul v v))
    else
      none

/-- Method `func (slots SlotsFloat64) Stats() (stats *Stats, err error)` on the
target `T`: every `float64` operation is the target's, `int` products wrap
around at the target's width and `/` on `int` truncates, and `sort.Sort` is
the target's. -/
def SlotsFloat64.StatsOn (T : Target α) (slots : List α) : Option (Returned α) := do
  let stats : GoStats.Stats α := Stats.zero α
  let stats := { stats with Len := slots.length }
  if stats.Len = 0 then
    return { stats := some stats, err := some Error.EMPTY, slots := slots }
  let len : Int := (stats.Len : Int)
  let entries : α := T.ofInt stats.Len
  let sorted : List Ptr := List.replicate stats.Len none
  let (sorted, sum, sumsq) ← rangeLoopOn T slots 0 (sorted, 0, 0)
  let stats :=
    if entries > 1 then
      let variance :=
        T.mul (T.div 1 (T.sub entries 1)) (T.sub sumsq (T.mul (T.mul (T.div 1 entries) sum) sum))
      { stats with Variance := variance, StdDev := T.sqrt variance }
    else
      stats
  let h ← T.sort { slots := slots, sorted := sorted }
  let stats := { stats with Mean := T.div sum entries }
  let stats := { stats with Minimum := (← h.index 0) }
  let stats := { stats with Maximum := (← h.index (wrapInt T.intBits (len - 1))) }
  let stats :=
    { stats with Percentile25 := (← h.index (Int.tdiv (wrapInt T.intBits (len * 25)) 100)) }
  let stats :=
    { stats with Percentile50 := (← h.index (Int.tdiv (wrapInt T.intBits (len * 50)) 100)) }
  let stats :=
    { stats with Percentile75 := (← h.index (Int.tdiv (wrapInt T.intBits (len * 75)) 100)) }
  let stats :=
    { stats with Percentile95 := (← h.index (Int.tdiv (wrapInt T.intBits (len * 95)) 100)) }
  let stats :=
    { stats with Percentile99 := (← h.index (Int.tdiv (wrapInt T.intBits (len * 99)) 100)) }
  return { stats := some stats, err := none, slots := h.slots }

/-- Value of `sum` after the loop over `slots` on the target `T`. -/
def accSumOn (T : Target α) (slots : List α) : α :=
  slots.foldl (fun s v => T.add s v) 0

/-- Value of `sumsq` after the loop over `slots` on the target `T`. -/
def accSumsqOn (T : Target α) (slots : List α) : α :=
  slots.foldl (fun q v => T.add q (T.mul v v)) 0

/-- The largest `int` of the given number of bits. -/
def maxInt (bits : Nat) : Int :=
  2 ^ (bits - 1) - 1

/-- The contract of `sort.Sort` at the call in `Stats`: the pointer slice comes
back as a permutation `F` of the addresses `&slots[0], ..`, ascending for
`Less` (no later element is less than an earlier one), and the samples are not
touched.  The order of equal samples is left open: the sort is not stable. -/
def SortContract (srt : Heap α → Option (Heap α)) (slots : List α) : Prop :=
  ∃ F : List Nat,
    srt { slots := slots, sorted := (List.range slots.length).map some }
      = some { slots := slots, sorted := F.map some } ∧
    F.Perm (List.range slots.length) ∧
    F.Pairwise (fun a b => ¬ key slots b < key slots a)

/-- A second implementation of `sort.Sort`, used to show that the contract
does not fix the order of equal samples: the insertion sort run on the
reversed pointer slice. -/
def sortSortRev (h : Heap α) : Option (Heap α) :=
  sortSort { h with sorted := h.sorted.reverse }

/-- The target `T` with `srt` as its `sort.Sort`. -/
def Target.withSort (T : Target α) (srt : Heap α → Option (Heap α)) : Target α :=
  { T with sort := srt }

end Target

/-! ## Lemmas -/

section ListFacts

theorem getElem?_mid {β : Type} (A D : List β) (b x : β) :
    (A ++ b :: x :: D)[A.length]? = some b := by
  induction A with
  | nil => simp
  | cons a A ih => simpa using ih

theorem getElem?_mid_succ {β : Type} (A D : List β) (b x : β) :
    (A ++ b :: x :: D)[A.length + 1]? = some x := by
  induction A with
  | nil => simp
  | cons a A ih => simpa using ih

theorem set_set_mid {β : Type} (A D : List β) (b x : β) :
    ((A ++ b :: x :: D).set (A.length + 1) b).set A.length x = A ++ x :: b :: D := by
  induction A with
  | nil => simp
  | cons a A ih => simp [ih]

theorem set_mid {β : Type} (A D : List β) (b c : β) :
    (A ++ b :: D).set A.length c = A ++ c :: D := by
  induction A with
  | nil => simp
  | cons a A ih => simp [ih]

theorem Swap_mid {α : Type} (slots : List α) (A D : List Nat) (b x : Nat) :
    sortFloat64.Swap ⟨slots, (A ++ b :: x :: D).map some⟩ (A.length + 1) A.length
      = some ⟨slots, (A ++ x :: b :: D).map some⟩ := by
  have h1 := getElem?_mid (A.map some) (D.map some) (some b) (some x)
  have h2 := getElem?_mid_succ (A.map some) (D.map some) (some b) (some x)
  have h3 := set_set_mid (A.map some) (D.map some) (some b) (some x)
  simp only [List.length_map] at h1 h2 h3
  simp only [sortFloat64.Swap, List.map_append, List.map_cons, h1, h2, Option.bind_eq_bind,
    Option.some_bind, Option.pure_def, h3]

end ListFacts

section Lemmas

variable {α : Type} [LinearOrderedField α]

theorem deref_some (slots : List α) (a : Nat) (ha : a < slots.length) :
    deref slots (some a) = some (key slots a) := by
  simp [deref, key, List.getD, List.getElem?_eq_getElem ha]

theorem insPre_length (slots : List α) (x : Nat) (R M : List Nat) :
    (insPre slots x R M).length = R.length + M.length + 1 := by
  induction R generalizing M with
  | nil => simp [insPre]
  | cons b R ih =>
    unfold insPre
    split
    · rw [ih]; simp; omega
    · simp; omega

theorem insPre_perm (slots : List α) (x : Nat) (R M : List Nat) :
    (insPre slots x R M).Perm (R.reverse ++ x :: M) := by
  induction R generalizing M with
  | nil => simp [insPre]
  | cons b R ih =>
    unfold insPre
    split
    · refine (ih (b :: M)).trans ?_
      simp only [List.reverse_cons, List.append_assoc, List.singleton_append]
      exact List.Perm.append_left _ (List.Perm.swap b x M)
    · exact List.Perm.refl _

theorem insPre_sorted (slots : List α) (x : Nat) (R M : List Nat)
    (hR : R.Pairwise (fun a b => key slots b ≤ key slots a))
    (hM : M.Pairwise (fun a b => key slots a ≤ key slots b))
    (hxM : ∀ m ∈ M, key slots x < key slots m)
    (hRM : ∀ r ∈ R, ∀ m ∈ M, key slots r ≤ key slots m) :
    (insPre slots x R M).Pairwise (fun a b => key slots a ≤ key slots b) := by
  induction R generalizing M with
  | nil =>
    simp only [insPre, List.pairwise_cons]
    exact ⟨fun m hm => le_of_lt (hxM m hm), hM⟩
  | cons b R ih =>
    rw [List.pairwise_cons] at hR
    unfold insPre
    split
    · rename_i hlt
      apply ih _ hR.2
      · rw [List.pairwise_cons]
        exact ⟨fun m hm => hRM b (List.mem_cons_self _ _) m hm, hM⟩
      · intro m hm
        rcases List.mem_cons.1 hm with rfl | hm
        · exact hlt
        · exact hxM m hm
      · intro r hr m hm
        rcases List.mem_cons.1 hm with rfl | hm
        · exact hR.1 r hr
        · exact hRM r (List.mem_cons_of_mem _ hr) m hm
    · rename_i hnlt
      have hbx : key slots b ≤ key slots x := not_lt.1 hnlt
      rw [List.pairwise_append]
      refine ⟨?_, ?_, ?_⟩
      · rw [List.pairwise_reverse, List.pairwise_cons]
        exact ⟨fun a ha => hR.1 a ha, hR.2⟩
      · rw [List.pairwise_cons]
        exact ⟨fun m hm => le_of_lt (hxM m hm), hM⟩
      · intro a ha c hc
        have hab : key slots a ≤ key slots b := by
          rcases List.mem_cons.1 (List.mem_reverse.1 ha) with rfl | ha
          · exact le_refl _
          · exact hR.1 a ha
        rcases List.mem_cons.1 hc with rfl | hc
        · exact le_trans hab hbx
        · exact hRM a (List.mem_reverse.1 ha) c hc

theorem read_mid (slots : List α) (A D : List Nat) (b x : Nat) (hb : b < slots.length) :
    Heap.read ⟨slots, (A ++ b :: x :: D).map some⟩ A.length = some (key slots b) := by
  have h := getElem?_mid (A.map some) (D.map some) (some b) (some x)
  simp only [List.length_map] at h
  simp only [Heap.read, List.map_append, List.map_cons, h]
  exact deref_some slots b hb

theorem read_mid_succ (slots : List α) (A D : List Nat) (b x : Nat) (hx : x < slots.length) :
    Heap.read ⟨slots, (A ++ b :: x :: D).map some⟩ (A.length + 1) = some (key slots x) := by
  have h := getElem?_mid_succ (A.map some) (D.map some) (some b) (some x)
  simp only [List.length_map] at h
  simp only [Heap.read, List.map_append, List.map_cons, h]
  exact deref_some slots x hx

theorem insertDown_eq (slots : List α) (x : Nat) (R M C : List Nat)
    (hx : x < slots.length) (hR : ∀ a ∈ R, a < slots.length) :
    insertDown ⟨slots, (R.reverse ++ x :: (M ++ C)).map some⟩ R.length
      = some ⟨slots, (insPre slots x R M ++ C).map some⟩ := by
  induction R generalizing M with
  | nil => simp [insertDown, insPre]
  | cons b R ih =>
    have hb : b < slots.length := hR b (List.mem_cons_self _ _)
    have hR2 : ∀ a ∈ R, a < slots.length := fun a ha => hR a (List.mem_cons_of_mem _ ha)
    have hlist : (b :: R).reverse ++ x :: (M ++ C) = R.reverse ++ b :: x :: (M ++ C) := by
      simp
    have hlen : (b :: R).length = R.reverse.length + 1 := by simp
    rw [hlist, hlen]
    unfold insertDown
    have hl1 := read_mid_succ slots R.reverse (M ++ C) b x hx
    have hl2 := read_mid slots R.reverse (M ++ C) b x hb
    simp only [sortFloat64.Less, hl1, hl2, Option.bind_eq_bind, Option.some_bind,
      Option.pure_def, Swap_mid]
    by_cases hlt : key slots x < key slots b
    · have h4 := ih (b :: M) hR2
      simp only [List.cons_append] at h4
      simp only [hlt, decide_True, if_true, List.length_reverse]
      rw [h4]
      simp [insPre, hlt]
    · simp only [hlt, decide_False]
      simp [insPre, hlt]

theorem insPre_valid (slots : List α) (x : Nat) (R M : List Nat) (n : Nat)
    (hx : x < n) (hR : ∀ a ∈ R, a < n) (hM : ∀ a ∈ M, a < n) :
    ∀ a ∈ insPre slots x R M, a < n := by
  intro a ha
  have hp := (insPre_perm slots x R M).mem_iff.1 ha
  simp only [List.mem_append, List.mem_reverse, List.mem_cons] at hp
  rcases hp with h | rfl | h
  · exact hR a h
  · exact hx
  · exact hM a h

theorem insertionSortLoop_eq (slots : List α) (P Q : List Nat)
    (hP : ∀ a ∈ P, a < slots.length) (hQ : ∀ a ∈ Q, a < slots.length) :
    insertionSortLoop ⟨slots, (P ++ Q).map some⟩ P.length Q.length
      = some ⟨slots, (sortPure slots P Q).map some⟩ := by
  induction Q generalizing P with
  | nil => simp [insertionSortLoop, sortPure]
  | cons x Q ih =>
    have hx : x < slots.length := hQ x (List.mem_cons_self _ _)
    have hQ2 : ∀ a ∈ Q, a < slots.length := fun a ha => hQ a (List.mem_cons_of_mem _ ha)
    have hPr : ∀ a ∈ P.reverse, a < slots.length := fun a ha => hP a (List.mem_reverse.1 ha)
    have h1 := insertDown_eq slots x P.reverse [] Q hx hPr
    simp only [List.reverse_reverse, List.length_reverse, List.nil_append] at h1
    have h2 := ih (insPre slots x P.reverse [])
      (insPre_valid slots x P.reverse [] slots.length hx hPr (by simp)) hQ2
    simp only [insPre_length, List.length_reverse, List.length_nil, Nat.add_zero] at h2
    simp only [List.length_cons, insertionSortLoop, h1, Option.bind_eq_bind, Option.some_bind,
      h2, sortPure]

theorem sortPure_perm (slots : List α) (P Q : List Nat) :
    (sortPure slots P Q).Perm (P ++ Q) := by
  induction Q generalizing P with
  | nil => simp [sortPure]
  | cons x Q ih =>
    unfold sortPure
    refine (ih _).trans ?_
    have h := insPre_perm slots x P.reverse []
    simp only [List.reverse_reverse] at h
    have h2 := List.Perm.append_right Q h
    simpa using h2

theorem sortPure_sorted (slots : List α) (P Q : List Nat)
    (hP : P.Pairwise (fun a b => key slots a ≤ key slots b)) :
    (sortPure slots P Q).Pairwise (fun a b => key slots a ≤ key slots b) := by
  induction Q generalizing P with
  | nil => simpa [sortPure] using hP
  | cons x Q ih =>
    unfold sortPure
    apply ih
    apply insPre_sorted
    · rw [List.pairwise_reverse]; exact hP
    · exact List.Pairwise.nil
    · intro m hm; cases hm
    · intro r _ m hm; cases hm

theorem sortedAddrs_perm (slots : List α) :
    (sortedAddrs slots).Perm (List.range slots.length) := by
  unfold sortedAddrs
  split
  · rename_i h; rw [h]
  · rename_i p Q h
    rw [h]
    exact sortPure_perm slots [p] Q

theorem sortedAddrs_sorted (slots : List α) :
    (sortedAddrs slots).Pairwise (fun a b => key slots a ≤ key slots b) := by
  unfold sortedAddrs
  split
  · exact List.Pairwise.nil
  · exact sortPure_sorted slots _ _ (List.pairwise_singleton _ _)

theorem map_key_range (slots : List α) :
    (List.range slots.length).map (key slots) = slots := by
  apply List.ext_getElem
  · simp
  · intro i h1 h2
    simp [key, List.getD, List.getElem?_eq_getElem h2]

theorem sortedVals_perm (slots : List α) : (sortedVals slots).Perm slots := by
  have h := (sortedAddrs_perm slots).map (key slots)
  rw [map_key_range] at h
  exact h

theorem sortedVals_sorted (slots : List α) : (sortedVals slots).Sorted (· ≤ ·) := by
  unfold sortedVals List.Sorted
  rw [List.pairwise_map]
  exact sortedAddrs_sorted slots

theorem sortedVals_length (slots : List α) : (sortedVals slots).length = slots.length :=
  (sortedVals_perm slots).length_eq

theorem sortSort_eq (slots : List α) :
    sortSort ⟨slots, (List.range slots.length).map some⟩
      = some ⟨slots, (sortedAddrs slots).map some⟩ := by
  unfold sortSort sortedAddrs sortFloat64.Len
  have hv : ∀ a ∈ List.range slots.length, a < slots.length := fun a ha => List.mem_range.1 ha
  generalize List.range slots.length = l at hv
  cases l with
  | nil => simp [insertionSortLoop]
  | cons p Q =>
    have h := insertionSortLoop_eq slots [p] Q
      (fun a ha => hv a (by simp at ha; simp [ha]))
      (fun a ha => hv a (List.mem_cons_of_mem _ ha))
    simpa using h

theorem read_sorted (slots : List α) (k : Nat) (hk : k < slots.length) :
    Heap.read ⟨slots, (sortedAddrs slots).map some⟩ k = some ((sortedVals slots).getD k 0) := by
  have hlen : (sortedAddrs slots).length = slots.length := by
    simpa using (sortedAddrs_perm slots).length_eq
  have hk2 : k < (sortedAddrs slots).length := by omega
  have hmem : (sortedAddrs slots)[k] ∈ List.range slots.length :=
    (sortedAddrs_perm slots).mem_iff.1 (List.getElem_mem _)
  have hlt : (sortedAddrs slots)[k] < slots.length := List.mem_range.1 hmem
  have hv : (sortedVals slots).getD k 0 = key slots (sortedAddrs slots)[k] := by
    simp [sortedVals, List.getD, List.getElem?_eq_getElem hk2]
  rw [hv]
  simp only [Heap.read, List.getElem?_map, List.getElem?_eq_getElem hk2,
    Option.map_some', Option.bind_eq_bind, Option.some_bind]
  exact deref_some slots _ hlt

/-- Whatever comparison sort stands behind `sort.Sort`, its contract fixes
every value read through the sorted pointers: if the pointer slice holds a
permutation `F` of the addresses that is ascending for `Less`, position `k`
reads the `k`-th sample of the ascending order. -/
theorem read_of_sort_contract (slots : List α) (F : List Nat)
    (hperm : F.Perm (List.range slots.length))
    (hasc : F.Pairwise (fun a b => ¬ key slots b < key slots a))
    (k : Nat) (hk : k < slots.length) :
    Heap.read ⟨slots, F.map some⟩ k = some ((sortedVals slots).getD k 0) := by
  have hp : (F.map (key slots)).Perm (sortedVals slots) := by
    have h := hperm.map (key slots)
    rw [map_key_range] at h
    exact h.trans (sortedVals_perm slots).symm
  have hs : (F.map (key slots)).Sorted (· ≤ ·) := by
    unfold List.Sorted
    rw [List.pairwise_map]
    exact hasc.imp (fun h => not_lt.1 h)
  have he : F.map (key slots) = sortedVals slots :=
    List.eq_of_perm_of_sorted hp hs (sortedVals_sorted slots)
  have hlen : F.length = slots.length := by simpa using hperm.length_eq
  have hk2 : k < F.length := by omega
  have hlt : F[k] < slots.length := List.mem_range.1 (hperm.mem_iff.1 (List.getElem_mem _))
  have hv : (sortedVals slots).getD k 0 = key slots F[k] := by
    rw [← he]
    simp [List.getD, List.getElem?_eq_getElem hk2]
  rw [hv]
  simp only [Heap.read, List.getElem?_map, List.getElem?_eq_getElem hk2,
    Option.map_some', Option.bind_eq_bind, Option.some_bind]
  exact deref_some slots _ hlt

theorem rangeLoop_eq (vs : List α) (i : Nat) (s q : α) :
    rangeLoop vs i ((List.range i).map some ++ List.replicate vs.length none, s, q)
      = some ((List.range (i + vs.length)).map some,
          vs.foldl (fun s v => s + v) s, vs.foldl (fun q v => q + v * v) q) := by
  induction vs generalizing i s q with
  | nil => simp [rangeLoop]
  | cons v vs ih =>
    have hset : ((List.range i).map some ++ List.replicate (v :: vs).length none).set i (some i)
        = (List.range (i + 1)).map some ++ List.replicate vs.length none := by
      have h := set_mid ((List.range i).map some) (List.replicate vs.length none) none (some i)
      simp only [List.length_map, List.length_range] at h
      rw [List.length_cons, List.replicate_succ, h]
      simp [List.range_succ]
    have hlt : i < ((List.range i).map some ++ List.replicate (v :: vs).length none).length := by
      simp only [List.length_append, List.length_map, List.length_range, List.length_replicate,
        List.length_cons]
      omega
    have e : i + 1 + vs.length = i + (v :: vs).length := by
      simp only [List.length_cons]
      omega
    rw [rangeLoop, if_pos hlt, hset, ih (i + 1) (s + v) (q + v * v), e]
    simp only [List.foldl_cons]

theorem Stats_eq (sqrt : α → α) (slots : List α) (hne : slots ≠ []) :
    SlotsFloat64.Stats sqrt slots = some
      { stats := some
          { Len := slots.length
            Mean := accSum slots / (slots.length : α)
            StdDev :=
              if (slots.length : α) > 1 then
                sqrt ((1 / ((slots.length : α) - 1))
                  * (accSumsq slots - (1 / (slots.length : α)) * accSum slots * accSum slots))
              else 0
            Variance :=
              if (slots.length : α) > 1 then
                (1 / ((slots.length : α) - 1))
                  * (accSumsq slots - (1 / (slots.length : α)) * accSum slots * accSum slots)
              else 0
            Minimum := (sortedVals slots).getD 0 0
            Maximum := (sortedVals slots).getD (slots.length - 1) 0
            Percentile25 := (sortedVals slots).getD ((slots.length * 25) / 100) 0
            Percentile50 := (sortedVals slots).getD ((slots.length * 50) / 100) 0
            Percentile75 := (sortedVals slots).getD ((slots.length * 75) / 100) 0
            Percentile95 := (sortedVals slots).getD ((slots.length * 95) / 100) 0
            Percentile99 := (sortedVals slots).getD ((slots.length * 99) / 100) 0 }
        err := none
        slots := slots } := by
  have hpos : 0 < slots.length := List.length_pos.2 hne
  have hn0 : slots.length ≠ 0 := by omega
  have hloop := rangeLoop_eq slots 0 (0 : α) 0
  simp only [List.range_zero, List.map_nil, List.nil_append, Nat.zero_add] at hloop
  have r0 := read_sorted slots 0 hpos
  have rmax := read_sorted slots (slots.length - 1) (by omega)
  have r25 := read_sorted slots ((slots.length * 25) / 100) (by omega)
  have r50 := read_sorted slots ((slots.length * 50) / 100) (by omega)
  have r75 := read_sorted slots ((slots.length * 75) / 100) (by omega)
  have r95 := read_sorted slots ((slots.length * 95) / 100) (by omega)
  have r99 := read_sorted slots ((slots.length * 99) / 100) (by omega)
  unfold SlotsFloat64.Stats
  simp only [hn0, if_false, hloop, sortSort_eq, r0, rmax, r25, r50, r75, r95, r99,
    Option.bind_eq_bind, Option.some_bind, Option.pure_def, bind_pure_comp, Stats.zero]
  by_cases h1 : (slots.length : α) > 1
  · simp [h1, accSum, accSumsq, rmax, r25, r50, r75, r95, r99]
  · simp [h1, accSum, accSumsq, rmax, r25, r50, r75, r95, r99]

theorem sortedVals_getD_eq (slots : List α) (k : Nat) (hk : k < slots.length) :
    (sortedVals slots)[k]? = some ((sortedVals slots).getD k 0) := by
  have h : k < (sortedVals slots).length := by rw [sortedVals_length]; exact hk
  simp [List.getD, List.getElem?_eq_getElem h]

theorem sortedVals_mono (slots : List α) (i j : Nat) (hij : i ≤ j) (hj : j < slots.length) :
    (sortedVals slots).getD i 0 ≤ (sortedVals slots).getD j 0 := by
  have hj2 : j < (sortedVals slots).length := by rw [sortedVals_length]; exact hj
  have hi2 : i < (sortedVals slots).length := by omega
  have h := (sortedVals_sorted slots).rel_get_of_le (a := ⟨i, hi2⟩) (b := ⟨j, hj2⟩) hij
  simpa [List.getD, List.getElem?_eq_getElem hi2, List.getElem?_eq_getElem hj2] using h

theorem sortedVals_getD_mem (slots : List α) (k : Nat) (hk : k < slots.length) :
    (sortedVals slots).getD k 0 ∈ slots := by
  have h : k < (sortedVals slots).length := by rw [sortedVals_length]; exact hk
  have hm : (sortedVals slots)[k] ∈ sortedVals slots := List.getElem_mem _
  have he : (sortedVals slots).getD k 0 = (sortedVals slots)[k] := by
    simp [List.getD, List.getElem?_eq_getElem h]
  rw [he]
  exact (sortedVals_perm slots).mem_iff.1 hm

theorem sortedVals_bounds (slots : List α) (x : α) (hx : x ∈ slots) :
    (sortedVals slots).getD 0 0 ≤ x ∧ x ≤ (sortedVals slots).getD (slots.length - 1) 0 := by
  have hx2 : x ∈ sortedVals slots := (sortedVals_perm slots).mem_iff.2 hx
  obtain ⟨k, hk, rfl⟩ := List.getElem_of_mem hx2
  have hk2 : k < slots.length := by rw [← sortedVals_length]; exact hk
  have he : (sortedVals slots)[k] = (sortedVals slots).getD k 0 := by
    simp [List.getD, List.getElem?_eq_getElem hk]
  rw [he]
  exact ⟨sortedVals_mono slots 0 k (Nat.zero_le _) hk2,
    sortedVals_mono slots k (slots.length - 1) (by omega) (by omega)⟩

theorem foldl_add_eq (f : α → α) (vs : List α) (s : α) :
    vs.foldl (fun a v => a + f v) s = s + (vs.map f).sum := by
  induction vs generalizing s with
  | nil => simp
  | cons v vs ih => simp [ih, add_assoc]

theorem accSum_eq (slots : List α) : accSum slots = slots.sum := by
  have h := foldl_add_eq (fun v => v) slots 0
  simpa [accSum] using h

theorem accSumsq_eq (slots : List α) : accSumsq slots = (slots.map (fun v => v * v)).sum := by
  have h := foldl_add_eq (fun v => v * v) slots 0
  simpa [accSumsq] using h

theorem sum_sq_dev (slots : List α) (m : α) :
    (slots.map (fun x => (x - m) ^ 2)).sum
      = (slots.map (fun v => v * v)).sum - 2 * m * slots.sum + (slots.length : α) * m ^ 2 := by
  induction slots with
  | nil => simp
  | cons v vs ih =>
    simp only [List.map_cons, List.sum_cons, List.length_cons, Nat.cast_add, Nat.cast_one, ih]
    ring

theorem sum_sq_dev_nonneg (slots : List α) (m : α) :
    0 ≤ (slots.map (fun x => (x - m) ^ 2)).sum := by
  apply List.sum_nonneg
  intro y hy
  obtain ⟨x, _, rfl⟩ := List.mem_map.1 hy
  exact sq_nonneg _

theorem variance_eq_spec (slots : List α) (h2 : 2 ≤ slots.length) :
    (1 / ((slots.length : α) - 1))
        * (accSumsq slots - (1 / (slots.length : α)) * accSum slots * accSum slots)
      = specSampleVariance slots := by
  have hn : (2 : α) ≤ (slots.length : α) := by exact_mod_cast h2
  have hn0 : (slots.length : α) ≠ 0 := by linarith
  have hn1 : (slots.length : α) - 1 ≠ 0 := by linarith
  rw [specSampleVariance, specMean, sum_sq_dev, accSum_eq, accSumsq_eq]
  field_simp
  ring

theorem variance_nonneg (slots : List α) (h2 : 2 ≤ slots.length) :
    0 ≤ (1 / ((slots.length : α) - 1))
        * (accSumsq slots - (1 / (slots.length : α)) * accSum slots * accSum slots) := by
  have hn : (2 : α) ≤ (slots.length : α) := by exact_mod_cast h2
  rw [variance_eq_spec slots h2, specSampleVariance]
  apply div_nonneg (sum_sq_dev_nonneg _ _)
  linarith

theorem one_lt_length_cast (slots : List α) : (slots.length : α) > 1 ↔ 2 ≤ slots.length := by
  rw [gt_iff_lt, Nat.one_lt_cast]
  omega

theorem Stats_of_sorted (sqrt : α → α) (slots ys : List α) (hne : slots ≠ [])
    (hperm : ys.Perm slots) (hsorted : ys.Sorted (· ≤ ·)) :
    SlotsFloat64.Stats sqrt slots = some
      { stats := some
          { Len := slots.length
            Mean := accSum slots / (slots.length : α)
            StdDev :=
              if (slots.length : α) > 1 then
                sqrt ((1 / ((slots.length : α) - 1))
                  * (accSumsq slots - (1 / (slots.length : α)) * accSum slots * accSum slots))
              else 0
            Variance :=
              if (slots.length : α) > 1 then
                (1 / ((slots.length : α) - 1))
                  * (accSumsq slots - (1 / (slots.length : α)) * accSum slots * accSum slots)
              else 0
            Minimum := ys.getD 0 0
            Maximum := ys.getD (slots.length - 1) 0
            Percentile25 := ys.getD ((slots.length * 25) / 100) 0
            Percentile50 := ys.getD ((slots.length * 50) / 100) 0
            Percentile75 := ys.getD ((slots.length * 75) / 100) 0
            Percentile95 := ys.getD ((slots.length * 95) / 100) 0
            Percentile99 := ys.getD ((slots.length * 99) / 100) 0 }
        err := none
        slots := slots } := by
  have hys : ys = sortedVals slots :=
    List.eq_of_perm_of_sorted (hperm.trans (sortedVals_perm slots).symm) hsorted
      (sortedVals_sorted slots)
  rw [hys]
  exact Stats_eq sqrt slots hne

theorem sortedVals_of_perm (xs ys : List α) (h : ys.Perm xs) :
    sortedVals ys = sortedVals xs :=
  List.eq_of_perm_of_sorted ((sortedVals_perm ys).trans (h.trans (sortedVals_perm xs).symm))
    (sortedVals_sorted ys) (sortedVals_sorted xs)

theorem length_mul_le_sum (l : List α) (a : α) (h : ∀ x ∈ l, a ≤ x) :
    (l.length : α) * a ≤ l.sum := by
  induction l with
  | nil => simp
  | cons v vs ih =>
    have h1 : a ≤ v := h v (List.mem_cons_self _ _)
    have h2 := ih (fun x hx => h x (List.mem_cons_of_mem _ hx))
    simp only [List.length_cons, Nat.cast_add, Nat.cast_one, List.sum_cons]
    linarith

theorem sum_le_length_mul (l : List α) (b : α) (h : ∀ x ∈ l, x ≤ b) :
    l.sum ≤ (l.length : α) * b := by
  induction l with
  | nil => simp
  | cons v vs ih =>
    have h1 : v ≤ b := h v (List.mem_cons_self _ _)
    have h2 := ih (fun x hx => h x (List.mem_cons_of_mem _ hx))
    simp only [List.length_cons, Nat.cast_add, Nat.cast_one, List.sum_cons]
    linarith

theorem countP_ge_of_take {β : Type} (V : List β) (q : β → Bool) (k : Nat)
    (hk : k < V.length) (hall : ∀ a ∈ V.take (k + 1), q a = true) :
    k + 1 ≤ V.countP q := by
  have hcount := List.countP_eq_length.2 hall
  have htake : (V.take (k + 1)).length = k + 1 := by
    rw [List.length_take]
    omega
  have hsplit : V.countP q = (V.take (k + 1) ++ V.drop (k + 1)).countP q := by
    rw [List.take_append_drop]
  rw [hsplit, List.countP_append, hcount, htake]
  exact Nat.le_add_right _ _

theorem countP_le_sortedVals (slots : List α) (k : Nat) (hk : k < slots.length) :
    k + 1 ≤ slots.countP (fun x => decide (x ≤ (sortedVals slots).getD k 0)) := by
  have hlen := sortedVals_length slots
  rw [← (sortedVals_perm slots).countP_eq]
  apply countP_ge_of_take _ _ k (by omega)
  intro a ha
  obtain ⟨i, hi, rfl⟩ := List.getElem_of_mem ha
  have hi2 : i < k + 1 := by
    have := List.length_take_le (k + 1) (sortedVals slots)
    omega
  have hi3 : i < (sortedVals slots).length := by omega
  have he : ((sortedVals slots).take (k + 1))[i] = (sortedVals slots).getD i 0 := by
    rw [List.getElem_take]
    simp [List.getD, List.getElem?_eq_getElem hi3]
  rw [he]
  exact decide_eq_true (sortedVals_mono slots i k (by omega) hk)

theorem accSum_of_perm (xs ys : List α) (h : ys.Perm xs) : accSum ys = accSum xs := by
  rw [accSum_eq, accSum_eq]
  exact h.sum_eq

theorem accSumsq_of_perm (xs ys : List α) (h : ys.Perm xs) : accSumsq ys = accSumsq xs := by
  rw [accSumsq_eq, accSumsq_eq]
  exact (h.map _).sum_eq

theorem sum_of_const (l : List α) (c : α) (h : ∀ x ∈ l, x = c) :
    l.sum = (l.length : α) * c :=
  le_antisymm (sum_le_length_mul l c (fun x hx => le_of_eq (h x hx)))
    (length_mul_le_sum l c (fun x hx => le_of_eq (h x hx).symm))

theorem accSum_of_const (slots : List α) (c : α) (h : ∀ x ∈ slots, x = c) :
    accSum slots = (slots.length : α) * c := by
  rw [accSum_eq]
  exact sum_of_const slots c h

theorem accSumsq_of_const (slots : List α) (c : α) (h : ∀ x ∈ slots, x = c) :
    accSumsq slots = (slots.length : α) * (c * c) := by
  rw [accSumsq_eq]
  have h2 := sum_of_const (slots.map (fun v => v * v)) (c * c) (by
    intro y hy
    obtain ⟨x, hx, rfl⟩ := List.mem_map.1 hy
    rw [h x hx])
  simpa using h2

theorem variance_of_const (slots : List α) (c : α) (hne : slots ≠ [])
    (h : ∀ x ∈ slots, x = c) :
    (1 / ((slots.length : α) - 1))
        * (accSumsq slots - (1 / (slots.length : α)) * accSum slots * accSum slots) = 0 := by
  have hpos : 0 < slots.length := List.length_pos.2 hne
  have hn0 : (slots.length : α) ≠ 0 := by
    have : (0 : α) < (slots.length : α) := by exact_mod_cast hpos
    exact ne_of_gt this
  rw [accSum_of_const slots c h, accSumsq_of_const slots c h]
  have inner : (slots.length : α) * (c * c)
      - (1 / (slots.length : α)) * ((slots.length : α) * c) * ((slots.length : α) * c) = 0 := by
    field_simp
    ring
  rw [inner, mul_zero]

end Lemmas

/-! ## The claims -/

section Claims

variable {α : Type} [LinearOrderedField α]

/-- C1: `Stats` returns (it does not panic), and the error it returns is `EMPTY`
exactly when the input has length 0; for every non-empty input the error is
nil. -/
theorem C1_error_iff_empty (sqrt : α → α) (slots : List α) :
    ∃ r, SlotsFloat64.Stats sqrt slots = some r ∧
      (r.err = some Error.EMPTY ↔ slots.length = 0) ∧
      (slots.length ≠ 0 → r.err = none) := by
  by_cases hne : slots = []
  · subst hne
    exact ⟨_, rfl, by simp, by simp⟩
  · have hlen : slots.length ≠ 0 := fun h => hne (List.length_eq_zero.1 h)
    exact ⟨_, Stats_eq sqrt slots hne, by simp [hlen], fun _ => rfl⟩

/-- C2, as stated, fails: on the empty slice of rationals the summary that
accompanies `EMPTY` is not nil. -/
theorem C2_counterexample :
    ¬ (∀ r, SlotsFloat64.Stats (fun x : ℚ => x) [] = some r →
        r.err = some Error.EMPTY → r.stats = none) := by
  intro h
  have h2 := h { stats := some (Stats.zero ℚ), err := some Error.EMPTY, slots := [] } rfl rfl
  simp at h2

/-- C2, amended: on the empty slice `Stats` returns the `EMPTY` error together
with a non-nil summary, the freshly allocated record in which every field,
`Len` included, is zero. -/
theorem C2_empty_returns_zero_record (sqrt : α → α) :
    SlotsFloat64.Stats sqrt ([] : List α) = some
      { stats := some
          { Len := 0, Mean := 0, StdDev := 0, Variance := 0, Minimum := 0, Maximum := 0,
            Percentile25 := 0, Percentile50 := 0, Percentile75 := 0, Percentile95 := 0,
            Percentile99 := 0 }
        err := some Error.EMPTY
        slots := [] } := by
  rfl

/-- C3: for every non-empty input `Stats` succeeds and
`Minimum ≤ Percentile25 ≤ Percentile50 ≤ Percentile75 ≤ Percentile95 ≤
Percentile99 ≤ Maximum`. -/
theorem C3_order_chain (sqrt : α → α) (slots : List α) (hne : slots ≠ []) :
    ∃ st, SlotsFloat64.Stats sqrt slots = some { stats := some st, err := none, slots := slots } ∧
      st.Minimum ≤ st.Percentile25 ∧ st.Percentile25 ≤ st.Percentile50 ∧
      st.Percentile50 ≤ st.Percentile75 ∧ st.Percentile75 ≤ st.Percentile95 ∧
      st.Percentile95 ≤ st.Percentile99 ∧ st.Percentile99 ≤ st.Maximum := by
  have hpos : 0 < slots.length := List.length_pos.2 hne
  refine ⟨_, Stats_eq sqrt slots hne, ?_, ?_, ?_, ?_, ?_, ?_⟩
  · exact sortedVals_mono slots _ _ (Nat.zero_le _) (by omega)
  · exact sortedVals_mono slots _ _ (by omega) (by omega)
  · exact sortedVals_mono slots _ _ (by omega) (by omega)
  · exact sortedVals_mono slots _ _ (by omega) (by omega)
  · exact sortedVals_mono slots _ _ (by omega) (by omega)
  · exact sortedVals_mono slots _ _ (by omega) (by omega)

/-- C3 at the input `[2, 1]`. -/
theorem C3_order_chain_witness :
    ([2, 1] : List ℚ) ≠ [] ∧
    ∃ st, SlotsFloat64.Stats (fun x : ℚ => x) [2, 1]
        = some { stats := some st, err := none, slots := [2, 1] } ∧
      st.Minimum ≤ st.Percentile25 ∧ st.Percentile25 ≤ st.Percentile50 ∧
      st.Percentile50 ≤ st.Percentile75 ∧ st.Percentile75 ≤ st.Percentile95 ∧
      st.Percentile95 ≤ st.Percentile99 ∧ st.Percentile99 ≤ st.Maximum :=
  ⟨by simp, C3_order_chain (fun x : ℚ => x) [2, 1] (by simp)⟩

/-- C4: for every non-empty input, and `ys` the ascending-sorted permutation of
the input values, `Stats` succeeds and each `Percentile_p`, `p` in
`{25, 50, 75, 95, 99}`, is the element of `ys` at index `(count * p) / 100`
(truncating division, 0-based); nothing is interpolated. -/
theorem C4_percentile_is_order_statistic (sqrt : α → α) (slots ys : List α)
    (hne : slots ≠ []) (hperm : ys.Perm slots) (hsorted : ys.Sorted (· ≤ ·)) :
    ∃ st, SlotsFloat64.Stats sqrt slots = some { stats := some st, err := none, slots := slots } ∧
      ys[(slots.length * 25) / 100]? = some st.Percentile25 ∧
      ys[(slots.length * 50) / 100]? = some st.Percentile50 ∧
      ys[(slots.length * 75) / 100]? = some st.Percentile75 ∧
      ys[(slots.length * 95) / 100]? = some st.Percentile95 ∧
      ys[(slots.length * 99) / 100]? = some st.Percentile99 := by
  have hpos : 0 < slots.length := List.length_pos.2 hne
  have hys : ys = sortedVals slots :=
    List.eq_of_perm_of_sorted (hperm.trans (sortedVals_perm slots).symm) hsorted
      (sortedVals_sorted slots)
  subst hys
  refine ⟨_, Stats_eq sqrt slots hne, ?_, ?_, ?_, ?_, ?_⟩
  · exact sortedVals_getD_eq slots _ (by omega)
  · exact sortedVals_getD_eq slots _ (by omega)
  · exact sortedVals_getD_eq slots _ (by omega)
  · exact sortedVals_getD_eq slots _ (by omega)
  · exact sortedVals_getD_eq slots _ (by omega)

/-- C4 at the input `[4, 3, 2, 1]`, whose ascending-sorted permutation is
`[1, 2, 3, 4]`. -/
theorem C4_percentile_is_order_statistic_witness :
    ([4, 3, 2, 1] : List ℚ) ≠ [] ∧ ([1, 2, 3, 4] : List ℚ).Perm [4, 3, 2, 1] ∧
    ([1, 2, 3, 4] : List ℚ).Sorted (· ≤ ·) ∧
    ∃ st, SlotsFloat64.Stats (fun x : ℚ => x) [4, 3, 2, 1]
        = some { stats := some st, err := none, slots := [4, 3, 2, 1] } ∧
      ([1, 2, 3, 4] : List ℚ)[(([4, 3, 2, 1] : List ℚ).length * 25) / 100]?
        = some st.Percentile25 ∧
      ([1, 2, 3, 4] : List ℚ)[(([4, 3, 2, 1] : List ℚ).length * 50) / 100]?
        = some st.Percentile50 ∧
      ([1, 2, 3, 4] : List ℚ)[(([4, 3, 2, 1] : List ℚ).length * 75) / 100]?
        = some st.Percentile75 ∧
      ([1, 2, 3, 4] : List ℚ)[(([4, 3, 2, 1] : List ℚ).length * 95) / 100]?
        = some st.Percentile95 ∧
      ([1, 2, 3, 4] : List ℚ)[(([4, 3, 2, 1] : List ℚ).length * 99) / 100]?
        = some st.Percentile99 :=
  have hp : ([1, 2, 3, 4] : List ℚ).Perm [4, 3, 2, 1] := by
    simpa using List.reverse_perm ([4, 3, 2, 1] : List ℚ)
  have hs : ([1, 2, 3, 4] : List ℚ).Sorted (· ≤ ·) := by
    simp [List.Sorted]
    norm_num
  ⟨by simp, hp, hs, C4_percentile_is_order_statistic (fun x : ℚ => x) [4, 3, 2, 1] [1, 2, 3, 4]
    (by simp) hp hs⟩

/-- C5: `Stats` returns for every input, and after the call the caller's slice
holds at each position the value it held before. -/
theorem C5_input_unchanged (sqrt : α → α) (slots : List α) :
    ∃ r, SlotsFloat64.Stats sqrt slots = some r ∧ r.slots = slots ∧
      ∀ j : Nat, r.slots[j]? = slots[j]? := by
  by_cases hne : slots = []
  · subst hne
    exact ⟨_, rfl, rfl, fun _ => rfl⟩
  · exact ⟨_, Stats_eq sqrt slots hne, rfl, fun _ => rfl⟩

/-- The variance and standard deviation of `Stats` over exact arithmetic, for a
`sqrt` that is a square root on the non-negative numbers. -/
theorem variance_formula_of_sqrt (sqrt : α → α) (slots : List α) (h2 : 2 ≤ slots.length)
    (hsqrt : ∀ x, 0 ≤ x → 0 ≤ sqrt x ∧ sqrt x ^ 2 = x) :
    ∃ st, SlotsFloat64.Stats sqrt slots = some { stats := some st, err := none, slots := slots } ∧
      st.Variance = (1 / ((slots.length : α) - 1))
        * (slots.foldl (fun q v => q + v * v) 0
            - (1 / (slots.length : α)) * (slots.foldl (fun s v => s + v) 0) ^ 2) ∧
      st.StdDev = sqrt st.Variance ∧
      (0 ≤ st.Variance → 0 ≤ st.StdDev ∧ st.StdDev ^ 2 = st.Variance) := by
  have hne : slots ≠ [] := by
    intro h
    rw [h] at h2
    simp at h2
  have hgt : (slots.length : α) > 1 := (one_lt_length_cast slots).2 h2
  refine ⟨_, Stats_eq sqrt slots hne, ?_, ?_, ?_⟩
  · simp only [if_pos hgt, accSum, accSumsq]
    ring
  · simp only [if_pos hgt]
  · simp only [if_pos hgt]
    exact hsqrt _

/-- C7: over exact arithmetic, for every input of at least two samples the
`Variance` returned by `Stats` is the Bessel-corrected sample variance: the sum
of the squared deviations from the arithmetic mean, divided by `count - 1`. -/
theorem C7_variance_is_sample_variance (sqrt : α → α) (slots : List α)
    (h2 : 2 ≤ slots.length) :
    ∃ st, SlotsFloat64.Stats sqrt slots = some { stats := some st, err := none, slots := slots } ∧
      st.Variance = specSampleVariance slots ∧
      st.Variance = (slots.map (fun x => (x - slots.sum / (slots.length : α)) ^ 2)).sum
        / ((slots.length : α) - 1) := by
  have hne : slots ≠ [] := by
    intro h
    rw [h] at h2
    simp at h2
  have hgt : (slots.length : α) > 1 := (one_lt_length_cast slots).2 h2
  refine ⟨_, Stats_eq sqrt slots hne, ?_, ?_⟩
  · simp only [if_pos hgt]
    exact variance_eq_spec slots h2
  · simp only [if_pos hgt]
    exact variance_eq_spec slots h2

/-- C7 at the input `[4, 3, 2, 1]`. -/
theorem C7_variance_is_sample_variance_witness :
    2 ≤ ([4, 3, 2, 1] : List ℚ).length ∧
    ∃ st, SlotsFloat64.Stats (fun x : ℚ => x) [4, 3, 2, 1]
        = some { stats := some st, err := none, slots := [4, 3, 2, 1] } ∧
      st.Variance = specSampleVariance [4, 3, 2, 1] ∧
      st.Variance = (([4, 3, 2, 1] : List ℚ).map
          (fun x => (x - ([4, 3, 2, 1] : List ℚ).sum
            / (([4, 3, 2, 1] : List ℚ).length : ℚ)) ^ 2)).sum
        / ((([4, 3, 2, 1] : List ℚ).length : ℚ) - 1) :=
  ⟨by simp, C7_variance_is_sample_variance (fun x : ℚ => x) [4, 3, 2, 1] (by simp)⟩

/-- C8: over exact arithmetic, for every non-empty input `Stats` succeeds with
`Variance ≥ 0`; for at least two samples the `Variance` is the value
`(1 / (count - 1)) * (sumsq - (1 / count) * sum ^ 2)` and that value is
non-negative, and for one sample the `Variance` is 0. -/
theorem C8_variance_nonneg (sqrt : α → α) (slots : List α) (hne : slots ≠ []) :
    ∃ st, SlotsFloat64.Stats sqrt slots = some { stats := some st, err := none, slots := slots } ∧
      0 ≤ st.Variance ∧
      (2 ≤ slots.length →
        st.Variance = (1 / ((slots.length : α) - 1))
          * (slots.foldl (fun q v => q + v * v) 0
              - (1 / (slots.length : α)) * (slots.foldl (fun s v => s + v) 0) ^ 2) ∧
        0 ≤ (1 / ((slots.length : α) - 1))
          * (slots.foldl (fun q v => q + v * v) 0
              - (1 / (slots.length : α)) * (slots.foldl (fun s v => s + v) 0) ^ 2)) ∧
      (slots.length = 1 → st.Variance = 0) := by
  have hform : (1 / ((slots.length : α) - 1))
      * (slots.foldl (fun q v => q + v * v) 0
          - (1 / (slots.length : α)) * (slots.foldl (fun s v => s + v) 0) ^ 2)
      = (1 / ((slots.length : α) - 1))
        * (accSumsq slots - (1 / (slots.length : α)) * accSum slots * accSum slots) := by
    simp only [accSum, accSumsq]
    ring
  refine ⟨_, Stats_eq sqrt slots hne, ?_, ?_, ?_⟩
  · by_cases hgt : (slots.length : α) > 1
    · simp only [if_pos hgt]
      exact variance_nonneg slots ((one_lt_length_cast slots).1 hgt)
    · simp only [if_neg hgt]
      exact le_refl _
  · intro h2
    have hgt : (slots.length : α) > 1 := (one_lt_length_cast slots).2 h2
    rw [hform]
    simp only [if_pos hgt]
    exact ⟨trivial, variance_nonneg slots h2⟩
  · intro h1
    have hgt : ¬ (slots.length : α) > 1 := by
      rw [one_lt_length_cast]
      omega
    simp only [if_neg hgt]

/-- C8 at the input `[2, 1]`. -/
theorem C8_variance_nonneg_witness :
    ([2, 1] : List ℚ) ≠ [] ∧
    ∃ st, SlotsFloat64.Stats (fun x : ℚ => x) [2, 1]
        = some { stats := some st, err := none, slots := [2, 1] } ∧
      0 ≤ st.Variance ∧
      (2 ≤ ([2, 1] : List ℚ).length →
        st.Variance = (1 / ((([2, 1] : List ℚ).length : ℚ) - 1))
          * (([2, 1] : List ℚ).foldl (fun q v => q + v * v) 0
              - (1 / (([2, 1] : List ℚ).length : ℚ))
                * (([2, 1] : List ℚ).foldl (fun s v => s + v) 0) ^ 2) ∧
        0 ≤ (1 / ((([2, 1] : List ℚ).length : ℚ) - 1))
          * (([2, 1] : List ℚ).foldl (fun q v => q + v * v) 0
              - (1 / (([2, 1] : List ℚ).length : ℚ))
                * (([2, 1] : List ℚ).foldl (fun s v => s + v) 0) ^ 2)) ∧
      (([2, 1] : List ℚ).length = 1 → st.Variance = 0) :=
  ⟨by simp, C8_variance_nonneg (fun x : ℚ => x) [2, 1] (by simp)⟩

/-- C9: on an input of exactly one sample `v`, `Stats` succeeds with `Len = 1`,
`Mean = Minimum = Maximum = v`, every percentile equal to `v`, and
`Variance = 0`, `StdDev = 0`. -/
theorem C9_single_sample (sqrt : α → α) (v : α) :
    SlotsFloat64.Stats sqrt [v] = some
      { stats := some
          { Len := 1, Mean := v, StdDev := 0, Variance := 0, Minimum := v, Maximum := v,
            Percentile25 := v, Percentile50 := v, Percentile75 := v, Percentile95 := v,
            Percentile99 := v }
        err := none
        slots := [v] } := by
  simp [SlotsFloat64.Stats, rangeLoop, sortSort, sortFloat64.Len, insertionSortLoop,
    Heap.read, deref, Stats.zero]

/-- C10: for every non-empty input `Stats` succeeds, `Minimum` and `Maximum`
are elements of the input, and `Minimum ≤ x ≤ Maximum` for every sample `x`. -/
theorem C10_minimum_maximum (sqrt : α → α) (slots : List α) (hne : slots ≠ []) :
    ∃ st, SlotsFloat64.Stats sqrt slots = some { stats := some st, err := none, slots := slots } ∧
      st.Minimum ∈ slots ∧ st.Maximum ∈ slots ∧
      ∀ x ∈ slots, st.Minimum ≤ x ∧ x ≤ st.Maximum := by
  have hpos : 0 < slots.length := List.length_pos.2 hne
  refine ⟨_, Stats_eq sqrt slots hne, ?_, ?_, ?_⟩
  · exact sortedVals_getD_mem slots 0 hpos
  · exact sortedVals_getD_mem slots _ (by omega)
  · exact fun x hx => sortedVals_bounds slots x hx

/-- C10 at the input `[256, 1, 1024, 512]`. -/
theorem C10_minimum_maximum_witness :
    ([256, 1, 1024, 512] : List ℚ) ≠ [] ∧
    ∃ st, SlotsFloat64.Stats (fun x : ℚ => x) [256, 1, 1024, 512]
        = some { stats := some st, err := none, slots := [256, 1, 1024, 512] } ∧
      st.Minimum ∈ ([256, 1, 1024, 512] : List ℚ) ∧
      st.Maximum ∈ ([256, 1, 1024, 512] : List ℚ) ∧
      ∀ x ∈ ([256, 1, 1024, 512] : List ℚ), st.Minimum ≤ x ∧ x ≤ st.Maximum :=
  ⟨by simp, C10_minimum_maximum (fun x : ℚ => x) [256, 1, 1024, 512] (by simp)⟩

/-- C12: for every non-empty input the `Len` field of the summary is the length
of the input. -/
theorem C12_len_is_length (sqrt : α → α) (slots : List α) (hne : slots ≠ []) :
    ∃ st, SlotsFloat64.Stats sqrt slots = some { stats := some st, err := none, slots := slots } ∧
      st.Len = slots.length :=
  ⟨_, Stats_eq sqrt slots hne, rfl⟩

/-- C12 at the input `[4, 3, 2, 1]`. -/
theorem C12_len_is_length_witness :
    ([4, 3, 2, 1] : List ℚ) ≠ [] ∧
    ∃ st, SlotsFloat64.Stats (fun x : ℚ => x) [4, 3, 2, 1]
        = some { stats := some st, err := none, slots := [4, 3, 2, 1] } ∧
      st.Len = ([4, 3, 2, 1] : List ℚ).length :=
  ⟨by simp, C12_len_is_length (fun x : ℚ => x) [4, 3, 2, 1] (by simp)⟩

/-- C13, amended: over exact arithmetic, for every non-empty input `Mean` is the
arithmetic average: the samples added up in input order, divided by `count`;
this is the average as the specification words it. -/
theorem C13_mean_is_average (sqrt : α → α) (slots : List α) (hne : slots ≠ []) :
    ∃ st, SlotsFloat64.Stats sqrt slots = some { stats := some st, err := none, slots := slots } ∧
      st.Mean = slots.foldl (fun s v => s + v) 0 / (slots.length : α) ∧
      st.Mean = slots.sum / (slots.length : α) ∧
      st.Mean = specMean slots := by
  refine ⟨_, Stats_eq sqrt slots hne, rfl, ?_, ?_⟩
  · simp only [accSum_eq]
  · simp only [accSum_eq, specMean]

/-- C13, amended, at the input `[256, 1, 1024, 512]`. -/
theorem C13_mean_is_average_witness :
    ([256, 1, 1024, 512] : List ℚ) ≠ [] ∧
    ∃ st, SlotsFloat64.Stats (fun x : ℚ => x) [256, 1, 1024, 512]
        = some { stats := some st, err := none, slots := [256, 1, 1024, 512] } ∧
      st.Mean = ([256, 1, 1024, 512] : List ℚ).foldl (fun s v => s + v) 0
        / (([256, 1, 1024, 512] : List ℚ).length : ℚ) ∧
      st.Mean = ([256, 1, 1024, 512] : List ℚ).sum
        / (([256, 1, 1024, 512] : List ℚ).length : ℚ) ∧
      st.Mean = specMean ([256, 1, 1024, 512] : List ℚ) :=
  ⟨by simp, C13_mean_is_average (fun x : ℚ => x) [256, 1, 1024, 512] (by simp)⟩

/-- C14: for every non-empty input and each `p` in `{25, 50, 75, 95, 99}`, at
least `p` percent of the entries are less than or equal to `Percentile_p`:
`p * count ≤ 100 * #{ i | slots[i] ≤ Percentile_p }`. -/
theorem C14_percentile_covers (sqrt : α → α) (slots : List α) (hne : slots ≠ []) :
    ∃ st, SlotsFloat64.Stats sqrt slots = some { stats := some st, err := none, slots := slots } ∧
      25 * slots.length ≤ 100 * slots.countP (fun x => decide (x ≤ st.Percentile25)) ∧
      50 * slots.length ≤ 100 * slots.countP (fun x => decide (x ≤ st.Percentile50)) ∧
      75 * slots.length ≤ 100 * slots.countP (fun x => decide (x ≤ st.Percentile75)) ∧
      95 * slots.length ≤ 100 * slots.countP (fun x => decide (x ≤ st.Percentile95)) ∧
      99 * slots.length ≤ 100 * slots.countP (fun x => decide (x ≤ st.Percentile99)) := by
  have hpos : 0 < slots.length := List.length_pos.2 hne
  have h25 := countP_le_sortedVals slots ((slots.length * 25) / 100) (by omega)
  have h50 := countP_le_sortedVals slots ((slots.length * 50) / 100) (by omega)
  have h75 := countP_le_sortedVals slots ((slots.length * 75) / 100) (by omega)
  have h95 := countP_le_sortedVals slots ((slots.length * 95) / 100) (by omega)
  have h99 := countP_le_sortedVals slots ((slots.length * 99) / 100) (by omega)
  refine ⟨_, Stats_eq sqrt slots hne, ?_, ?_, ?_, ?_, ?_⟩
  · show 25 * _ ≤ 100 * slots.countP
      (fun x => decide (x ≤ (sortedVals slots).getD ((slots.length * 25) / 100) 0))
    omega
  · show 50 * _ ≤ 100 * slots.countP
      (fun x => decide (x ≤ (sortedVals slots).getD ((slots.length * 50) / 100) 0))
    omega
  · show 75 * _ ≤ 100 * slots.countP
      (fun x => decide (x ≤ (sortedVals slots).getD ((slots.length * 75) / 100) 0))
    omega
  · show 95 * _ ≤ 100 * slots.countP
      (fun x => decide (x ≤ (sortedVals slots).getD ((slots.length * 95) / 100) 0))
    omega
  · show 99 * _ ≤ 100 * slots.countP
      (fun x => decide (x ≤ (sortedVals slots).getD ((slots.length * 99) / 100) 0))
    omega

/-- C14 at the input `[2, 1, 5, 4, 3, 6, 9, 8, 7, 10]`. -/
theorem C14_percentile_covers_witness :
    ([2, 1, 5, 4, 3, 6, 9, 8, 7, 10] : List ℚ) ≠ [] ∧
    ∃ st, SlotsFloat64.Stats (fun x : ℚ => x) [2, 1, 5, 4, 3, 6, 9, 8, 7, 10]
        = some { stats := some st, err := none, slots := [2, 1, 5, 4, 3, 6, 9, 8, 7, 10] } ∧
      25 * ([2, 1, 5, 4, 3, 6, 9, 8, 7, 10] : List ℚ).length
        ≤ 100 * ([2, 1, 5, 4, 3, 6, 9, 8, 7, 10] : List ℚ).countP
            (fun x => decide (x ≤ st.Percentile25)) ∧
      50 * ([2, 1, 5, 4, 3, 6, 9, 8, 7, 10] : List ℚ).length
        ≤ 100 * ([2, 1, 5, 4, 3, 6, 9, 8, 7, 10] : List ℚ).countP
            (fun x => decide (x ≤ st.Percentile50)) ∧
      75 * ([2, 1, 5, 4, 3, 6, 9, 8, 7, 10] : List ℚ).length
        ≤ 100 * ([2, 1, 5, 4, 3, 6, 9, 8, 7, 10] : List ℚ).countP
            (fun x => decide (x ≤ st.Percentile75)) ∧
      95 * ([2, 1, 5, 4, 3, 6, 9, 8, 7, 10] : List ℚ).length
        ≤ 100 * ([2, 1, 5, 4, 3, 6, 9, 8, 7, 10] : List ℚ).countP
            (fun x => decide (x ≤ st.Percentile95)) ∧
      99 * ([2, 1, 5, 4, 3, 6, 9, 8, 7, 10] : List ℚ).length
        ≤ 100 * ([2, 1, 5, 4, 3, 6, 9, 8, 7, 10] : List ℚ).countP
            (fun x => decide (x ≤ st.Percentile99)) :=
  ⟨by simp, C14_percentile_covers (fun x : ℚ => x) [2, 1, 5, 4, 3, 6, 9, 8, 7, 10] (by simp)⟩

/-- C15: over exact arithmetic the order of the samples does not matter: for
every non-empty `xs` and every permutation `ys` of it, `Stats` succeeds on both
with one and the same summary (`Len`, `Mean`, `Variance`, `StdDev`, `Minimum`,
`Maximum` and the five percentiles all agree). -/
theorem C15_permutation_invariant (sqrt : α → α) (xs ys : List α) (hne : xs ≠ [])
    (hperm : ys.Perm xs) :
    ∃ st, SlotsFloat64.Stats sqrt xs = some { stats := some st, err := none, slots := xs } ∧
      SlotsFloat64.Stats sqrt ys = some { stats := some st, err := none, slots := ys } := by
  have hne2 : ys ≠ [] := by
    intro h
    rw [h] at hperm
    exact hne (List.nil_perm.1 hperm)
  refine ⟨_, Stats_eq sqrt xs hne, ?_⟩
  rw [Stats_eq sqrt ys hne2, hperm.length_eq, accSum_of_perm xs ys hperm,
    accSumsq_of_perm xs ys hperm, sortedVals_of_perm xs ys hperm]

/-- C15 at the inputs `[4, 3, 2, 1]` and its reversal `[1, 2, 3, 4]`. -/
theorem C15_permutation_invariant_witness :
    ([4, 3, 2, 1] : List ℚ) ≠ [] ∧ ([1, 2, 3, 4] : List ℚ).Perm [4, 3, 2, 1] ∧
    ∃ st, SlotsFloat64.Stats (fun x : ℚ => x) [4, 3, 2, 1]
        = some { stats := some st, err := none, slots := [4, 3, 2, 1] } ∧
      SlotsFloat64.Stats (fun x : ℚ => x) [1, 2, 3, 4]
        = some { stats := some st, err := none, slots := [1, 2, 3, 4] } :=
  have hp : ([1, 2, 3, 4] : List ℚ).Perm [4, 3, 2, 1] := by
    simpa using List.reverse_perm ([4, 3, 2, 1] : List ℚ)
  ⟨by simp, hp, C15_permutation_invariant (fun x : ℚ => x) [4, 3, 2, 1] [1, 2, 3, 4]
    (by simp) hp⟩

/-- C18, amended: for every non-empty input whose samples all equal `c`, `Stats`
succeeds with `Minimum = Maximum = c` and every percentile `c`, and, over exact
arithmetic with a square root that maps 0 to 0, `Mean = c`, `Variance = 0` and
`StdDev = 0`. -/
theorem C18_constant_input (sqrt : α → α) (slots : List α) (c : α) (hne : slots ≠ [])
    (hall : ∀ x ∈ slots, x = c) (hsqrt : sqrt 0 = 0) :
    ∃ st, SlotsFloat64.Stats sqrt slots = some { stats := some st, err := none, slots := slots } ∧
      st.Mean = c ∧ st.Minimum = c ∧ st.Maximum = c ∧
      st.Percentile25 = c ∧ st.Percentile50 = c ∧ st.Percentile75 = c ∧
      st.Percentile95 = c ∧ st.Percentile99 = c ∧
      st.Variance = 0 ∧ st.StdDev = 0 := by
  have hpos : 0 < slots.length := List.length_pos.2 hne
  have hn0 : (slots.length : α) ≠ 0 := by
    have : (0 : α) < (slots.length : α) := by exact_mod_cast hpos
    exact ne_of_gt this
  have hvar := variance_of_const slots c hne hall
  refine ⟨_, Stats_eq sqrt slots hne, ?_, ?_, ?_, ?_, ?_, ?_, ?_, ?_, ?_, ?_⟩
  · show accSum slots / (slots.length : α) = c
    rw [accSum_of_const slots c hall]
    field_simp
  · exact hall _ (sortedVals_getD_mem slots _ hpos)
  · exact hall _ (sortedVals_getD_mem slots _ (by omega))
  · exact hall _ (sortedVals_getD_mem slots _ (by omega))
  · exact hall _ (sortedVals_getD_mem slots _ (by omega))
  · exact hall _ (sortedVals_getD_mem slots _ (by omega))
  · exact hall _ (sortedVals_getD_mem slots _ (by omega))
  · exact hall _ (sortedVals_getD_mem slots _ (by omega))
  · by_cases hgt : (slots.length : α) > 1
    · simp only [if_pos hgt]
      exact hvar
    · simp only [if_neg hgt]
  · by_cases hgt : (slots.length : α) > 1
    · simp only [if_pos hgt]
      rw [hvar]
      exact hsqrt
    · simp only [if_neg hgt]

/-- C18, amended, at the input `[1, 1]` over the reals, with the real square root. -/
theorem C18_constant_input_witness :
    ([1, 1] : List ℝ) ≠ [] ∧ (∀ x ∈ ([1, 1] : List ℝ), x = 1) ∧ Real.sqrt 0 = 0 ∧
    ∃ st, SlotsFloat64.Stats Real.sqrt ([1, 1] : List ℝ)
        = some { stats := some st, err := none, slots := [1, 1] } ∧
      st.Mean = 1 ∧ st.Minimum = 1 ∧ st.Maximum = 1 ∧
      st.Percentile25 = 1 ∧ st.Percentile50 = 1 ∧ st.Percentile75 = 1 ∧
      st.Percentile95 = 1 ∧ st.Percentile99 = 1 ∧
      st.Variance = 0 ∧ st.StdDev = 0 :=
  ⟨by simp, by simp, Real.sqrt_zero,
    C18_constant_input Real.sqrt [1, 1] 1 (by simp) (by simp) Real.sqrt_zero⟩

/-- C19: for every non-empty input and each `p` in `{25, 50, 75, 95, 99}`, the
index `(count * p) / 100` is `count - 1` exactly when
`count * (100 - p) ≤ 100`, and then `Percentile_p` is `Maximum`; in particular
`Percentile99 = Maximum` up to 100 samples and `Percentile95 = Maximum` up to
20 samples. -/
theorem C19_percentile_is_maximum (sqrt : α → α) (slots : List α) (hne : slots ≠ []) :
    ∃ st, SlotsFloat64.Stats sqrt slots = some { stats := some st, err := none, slots := slots } ∧
      (((slots.length * 25) / 100 = slots.length - 1 ↔ slots.length * (100 - 25) ≤ 100) ∧
        ((slots.length * 50) / 100 = slots.length - 1 ↔ slots.length * (100 - 50) ≤ 100) ∧
        ((slots.length * 75) / 100 = slots.length - 1 ↔ slots.length * (100 - 75) ≤ 100) ∧
        ((slots.length * 95) / 100 = slots.length - 1 ↔ slots.length * (100 - 95) ≤ 100) ∧
        ((slots.length * 99) / 100 = slots.length - 1 ↔ slots.length * (100 - 99) ≤ 100)) ∧
      (slots.length * (100 - 25) ≤ 100 → st.Percentile25 = st.Maximum) ∧
      (slots.length * (100 - 50) ≤ 100 → st.Percentile50 = st.Maximum) ∧
      (slots.length * (100 - 75) ≤ 100 → st.Percentile75 = st.Maximum) ∧
      (slots.length * (100 - 95) ≤ 100 → st.Percentile95 = st.Maximum) ∧
      (slots.length * (100 - 99) ≤ 100 → st.Percentile99 = st.Maximum) ∧
      (slots.length ≤ 100 → st.Percentile99 = st.Maximum) ∧
      (slots.length ≤ 20 → st.Percentile95 = st.Maximum) := by
  have hpos : 0 < slots.length := List.length_pos.2 hne
  refine ⟨_, Stats_eq sqrt slots hne, ⟨?_, ?_, ?_, ?_, ?_⟩, ?_, ?_, ?_, ?_, ?_, ?_, ?_⟩
  · omega
  · omega
  · omega
  · omega
  · omega
  · intro h
    have e : (slots.length * 25) / 100 = slots.length - 1 := by omega
    simp only [e]
  · intro h
    have e : (slots.length * 50) / 100 = slots.length - 1 := by omega
    simp only [e]
  · intro h
    have e : (slots.length * 75) / 100 = slots.length - 1 := by omega
    simp only [e]
  · intro h
    have e : (slots.length * 95) / 100 = slots.length - 1 := by omega
    simp only [e]
  · intro h
    have e : (slots.length * 99) / 100 = slots.length - 1 := by omega
    simp only [e]
  · intro h
    have e : (slots.length * 99) / 100 = slots.length - 1 := by omega
    simp only [e]
  · intro h
    have e : (slots.length * 95) / 100 = slots.length - 1 := by omega
    simp only [e]

/-- C19 at the input `[2, 1, 5, 4, 3, 6, 9, 8, 7, 10]`. -/
theorem C19_percentile_is_maximum_witness :
    ([2, 1, 5, 4, 3, 6, 9, 8, 7, 10] : List ℚ) ≠ [] ∧
    ∃ st, SlotsFloat64.Stats (fun x : ℚ => x) [2, 1, 5, 4, 3, 6, 9, 8, 7, 10]
        = some { stats := some st, err := none, slots := [2, 1, 5, 4, 3, 6, 9, 8, 7, 10] } ∧
      (((([2, 1, 5, 4, 3, 6, 9, 8, 7, 10] : List ℚ).length * 25) / 100
            = ([2, 1, 5, 4, 3, 6, 9, 8, 7, 10] : List ℚ).length - 1
          ↔ ([2, 1, 5, 4, 3, 6, 9, 8, 7, 10] : List ℚ).length * (100 - 25) ≤ 100) ∧
        ((([2, 1, 5, 4, 3, 6, 9, 8, 7, 10] : List ℚ).length * 50) / 100
            = ([2, 1, 5, 4, 3, 6, 9, 8, 7, 10] : List ℚ).length - 1
          ↔ ([2, 1, 5, 4, 3, 6, 9, 8, 7, 10] : List ℚ).length * (100 - 50) ≤ 100) ∧
        ((([2, 1, 5, 4, 3, 6, 9, 8, 7, 10] : List ℚ).length * 75) / 100
            = ([2, 1, 5, 4, 3, 6, 9, 8, 7, 10] : List ℚ).length - 1
          ↔ ([2, 1, 5, 4, 3, 6, 9, 8, 7, 10] : List ℚ).length * (100 - 75) ≤ 100) ∧
        ((([2, 1, 5, 4, 3, 6, 9, 8, 7, 10] : List ℚ).length * 95) / 100
            = ([2, 1, 5, 4, 3, 6, 9, 8, 7, 10] : List ℚ).length - 1
          ↔ ([2, 1, 5, 4, 3, 6, 9, 8, 7, 10] : List ℚ).length * (100 - 95) ≤ 100) ∧
        ((([2, 1, 5, 4, 3, 6, 9, 8, 7, 10] : List ℚ).length * 99) / 100
            = ([2, 1, 5, 4, 3, 6, 9, 8, 7, 10] : List ℚ).length - 1
          ↔ ([2, 1, 5, 4, 3, 6, 9, 8, 7, 10] : List ℚ).length * (100 - 99) ≤ 100)) ∧
      (([2, 1, 5, 4, 3, 6, 9, 8, 7, 10] : List ℚ).length * (100 - 25) ≤ 100
        → st.Percentile25 = st.Maximum) ∧
      (([2, 1, 5, 4, 3, 6, 9, 8, 7, 10] : List ℚ).length * (100 - 50) ≤ 100
        → st.Percentile50 = st.Maximum) ∧
      (([2, 1, 5, 4, 3, 6, 9, 8, 7, 10] : List ℚ).length * (100 - 75) ≤ 100
        → st.Percentile75 = st.Maximum) ∧
      (([2, 1, 5, 4, 3, 6, 9, 8, 7, 10] : List ℚ).length * (100 - 95) ≤ 100
        → st.Percentile95 = st.Maximum) ∧
      (([2, 1, 5, 4, 3, 6, 9, 8, 7, 10] : List ℚ).length * (100 - 99) ≤ 100
        → st.Percentile99 = st.Maximum) ∧
      (([2, 1, 5, 4, 3, 6, 9, 8, 7, 10] : List ℚ).length ≤ 100
        → st.Percentile99 = st.Maximum) ∧
      (([2, 1, 5, 4, 3, 6, 9, 8, 7, 10] : List ℚ).length ≤ 20
        → st.Percentile95 = st.Maximum) :=
  ⟨by simp, C19_percentile_is_maximum (fun x : ℚ => x) [2, 1, 5, 4, 3, 6, 9, 8, 7, 10]
    (by simp)⟩

/-- C20: over exact arithmetic, for every non-empty input
`Minimum ≤ Mean ≤ Maximum`. -/
theorem C20_mean_between_min_max (sqrt : α → α) (slots : List α) (hne : slots ≠ []) :
    ∃ st, SlotsFloat64.Stats sqrt slots = some { stats := some st, err := none, slots := slots } ∧
      st.Minimum ≤ st.Mean ∧ st.Mean ≤ st.Maximum := by
  have hpos : 0 < slots.length := List.length_pos.2 hne
  have hn : (0 : α) < (slots.length : α) := by exact_mod_cast hpos
  have hlo := length_mul_le_sum slots ((sortedVals slots).getD 0 0)
    (fun x hx => (sortedVals_bounds slots x hx).1)
  have hhi := sum_le_length_mul slots ((sortedVals slots).getD (slots.length - 1) 0)
    (fun x hx => (sortedVals_bounds slots x hx).2)
  refine ⟨_, Stats_eq sqrt slots hne, ?_, ?_⟩
  · show (sortedVals slots).getD 0 0 ≤ accSum slots / (slots.length : α)
    rw [accSum_eq, le_div_iff₀ hn]
    linarith
  · show accSum slots / (slots.length : α) ≤ (sortedVals slots).getD (slots.length - 1) 0
    rw [accSum_eq, div_le_iff₀ hn]
    linarith

/-- C20 at the input `[256, 1, 1024, 512]`. -/
theorem C20_mean_between_min_max_witness :
    ([256, 1, 1024, 512] : List ℚ) ≠ [] ∧
    ∃ st, SlotsFloat64.Stats (fun x : ℚ => x) [256, 1, 1024, 512]
        = some { stats := some st, err := none, slots := [256, 1, 1024, 512] } ∧
      st.Minimum ≤ st.Mean ∧ st.Mean ≤ st.Maximum :=
  ⟨by simp, C20_mean_between_min_max (fun x : ℚ => x) [256, 1, 1024, 512] (by simp)⟩

end Claims

section LiteralTests

theorem statTests_0 :
    SlotsFloat64.Stats Real.sqrt ([1, 1] : List ℝ) = some
      { stats := some
          { Len := 2, Mean := 1, StdDev := 0, Variance := 0, Minimum := 1, Maximum := 1,
            Percentile25 := 1, Percentile50 := 1, Percentile75 := 1, Percentile95 := 1,
            Percentile99 := 1 }
        err := none
        slots := [1, 1] } := by
  have hs : ([1, 1] : List ℝ).Sorted (· ≤ ·) := by simp [List.Sorted]
  rw [Stats_of_sorted Real.sqrt [1, 1] [1, 1] (by simp) (List.Perm.refl _) hs]
  norm_num [accSum, accSumsq]

theorem statTests_1 :
    SlotsFloat64.Stats Real.sqrt ([2, 1] : List ℝ) = some
      { stats := some
          { Len := 2, Mean := 3 / 2, StdDev := Real.sqrt (1 / 2), Variance := 1 / 2,
            Minimum := 1, Maximum := 2,
            Percentile25 := 1, Percentile50 := 2, Percentile75 := 2, Percentile95 := 2,
            Percentile99 := 2 }
        err := none
        slots := [2, 1] } := by
  have hs : ([1, 2] : List ℝ).Sorted (· ≤ ·) := by simp [List.Sorted]
  rw [Stats_of_sorted Real.sqrt [2, 1] [1, 2] (by simp) (List.Perm.swap _ _ _) hs]
  norm_num [accSum, accSumsq]

theorem statTests_2 :
    SlotsFloat64.Stats Real.sqrt ([4, 3, 2, 1] : List ℝ) = some
      { stats := some
          { Len := 4, Mean := 5 / 2, StdDev := Real.sqrt (5 / 3), Variance := 5 / 3,
            Minimum := 1, Maximum := 4,
            Percentile25 := 2, Percentile50 := 3, Percentile75 := 4, Percentile95 := 4,
            Percentile99 := 4 }
        err := none
        slots := [4, 3, 2, 1] } := by
  have hs : ([1, 2, 3, 4] : List ℝ).Sorted (· ≤ ·) := by
    simp [List.Sorted]
    norm_num
  have hp : ([1, 2, 3, 4] : List ℝ).Perm [4, 3, 2, 1] := by
    have h : ([1, 2, 3, 4] : List ℕ).Perm [4, 3, 2, 1] := by decide
    simpa using h.map (fun n : ℕ => (n : ℝ))
  rw [Stats_of_sorted Real.sqrt [4, 3, 2, 1] [1, 2, 3, 4] (by simp) hp hs]
  norm_num [accSum, accSumsq]

theorem statTests_3 :
    SlotsFloat64.Stats Real.sqrt ([256, 1, 1024, 512] : List ℝ) = some
      { stats := some
          { Len := 4, Mean := 1793 / 4, StdDev := Real.sqrt (763393 / 4),
            Variance := 763393 / 4, Minimum := 1, Maximum := 1024,
            Percentile25 := 256, Percentile50 := 512, Percentile75 := 1024,
            Percentile95 := 1024, Percentile99 := 1024 }
        err := none
        slots := [256, 1, 1024, 512] } := by
  have hs : ([1, 256, 512, 1024] : List ℝ).Sorted (· ≤ ·) := by
    simp [List.Sorted]
    norm_num
  have hp : ([1, 256, 512, 1024] : List ℝ).Perm [256, 1, 1024, 512] := by
    have h : ([1, 256, 512, 1024] : List ℕ).Perm [256, 1, 1024, 512] := by decide
    simpa using h.map (fun n : ℕ => (n : ℝ))
  rw [Stats_of_sorted Real.sqrt [256, 1, 1024, 512] [1, 256, 512, 1024] (by simp) hp hs]
  norm_num [accSum, accSumsq]

theorem statTests_4 :
    SlotsFloat64.Stats Real.sqrt ([2, 1, 5, 4, 3, 6, 9, 8, 7, 10] : List ℝ) = some
      { stats := some
          { Len := 10, Mean := 11 / 2, StdDev := Real.sqrt (55 / 6), Variance := 55 / 6,
            Minimum := 1, Maximum := 10,
            Percentile25 := 3, Percentile50 := 6, Percentile75 := 8, Percentile95 := 10,
            Percentile99 := 10 }
        err := none
        slots := [2, 1, 5, 4, 3, 6, 9, 8, 7, 10] } := by
  have hs : ([1, 2, 3, 4, 5, 6, 7, 8, 9, 10] : List ℝ).Sorted (· ≤ ·) := by
    simp [List.Sorted]
    norm_num
  have hp : ([1, 2, 3, 4, 5, 6, 7, 8, 9, 10] : List ℝ).Perm [2, 1, 5, 4, 3, 6, 9, 8, 7, 10] := by
    have h : ([1, 2, 3, 4, 5, 6, 7, 8, 9, 10] : List ℕ).Perm [2, 1, 5, 4, 3, 6, 9, 8, 7, 10] := by
      decide
    simpa using h.map (fun n : ℕ => (n : ℝ))
  rw [Stats_of_sorted Real.sqrt [2, 1, 5, 4, 3, 6, 9, 8, 7, 10] [1, 2, 3, 4, 5, 6, 7, 8, 9, 10]
    (by simp) hp hs]
  norm_num [accSum, accSumsq]

theorem sqrt_rounds (v lo hi : ℝ) (hlo : 0 ≤ lo) (hhi : 0 < hi) (h1 : lo ^ 2 ≤ v)
    (h2 : v < hi ^ 2) : lo ≤ Real.sqrt v ∧ Real.sqrt v < hi :=
  ⟨(Real.le_sqrt hlo (le_trans (sq_nonneg lo) h1)).2 h1, (Real.sqrt_lt' hhi).2 h2⟩

/-- The five inputs of `statTests` over exact arithmetic (the reals with the
real square root): the variances are 0, 1/2, 5/3, 763393/4 and 55/6, and their
square roots round to 0.7071, 1.2910, 436.8618 and 3.0277 at four decimals. -/
theorem statTests_exact :
    (SlotsFloat64.Stats Real.sqrt ([1, 1] : List ℝ) = some
      { stats := some
          { Len := 2, Mean := 1, StdDev := 0, Variance := 0, Minimum := 1, Maximum := 1,
            Percentile25 := 1, Percentile50 := 1, Percentile75 := 1, Percentile95 := 1,
            Percentile99 := 1 }
        err := none
        slots := [1, 1] }) ∧
    (SlotsFloat64.Stats Real.sqrt ([2, 1] : List ℝ) = some
      { stats := some
          { Len := 2, Mean := 3 / 2, StdDev := Real.sqrt (1 / 2), Variance := 1 / 2,
            Minimum := 1, Maximum := 2,
            Percentile25 := 1, Percentile50 := 2, Percentile75 := 2, Percentile95 := 2,
            Percentile99 := 2 }
        err := none
        slots := [2, 1] } ∧
      (70705 : ℝ) / 100000 ≤ Real.sqrt (1 / 2) ∧ Real.sqrt (1 / 2) < 70715 / 100000) ∧
    (SlotsFloat64.Stats Real.sqrt ([4, 3, 2, 1] : List ℝ) = some
      { stats := some
          { Len := 4, Mean := 5 / 2, StdDev := Real.sqrt (5 / 3), Variance := 5 / 3,
            Minimum := 1, Maximum := 4,
            Percentile25 := 2, Percentile50 := 3, Percentile75 := 4, Percentile95 := 4,
            Percentile99 := 4 }
        err := none
        slots := [4, 3, 2, 1] } ∧
      (129095 : ℝ) / 100000 ≤ Real.sqrt (5 / 3) ∧ Real.sqrt (5 / 3) < 129105 / 100000 ∧
      (166665 : ℝ) / 100000 ≤ 5 / 3 ∧ (5 : ℝ) / 3 < 166675 / 100000) ∧
    (SlotsFloat64.Stats Real.sqrt ([256, 1, 1024, 512] : List ℝ) = some
      { stats := some
          { Len := 4, Mean := 1793 / 4, StdDev := Real.sqrt (763393 / 4),
            Variance := 763393 / 4, Minimum := 1, Maximum := 1024,
            Percentile25 := 256, Percentile50 := 512, Percentile75 := 1024,
            Percentile95 := 1024, Percentile99 := 1024 }
        err := none
        slots := [256, 1, 1024, 512] } ∧
      (43686175 : ℝ) / 100000 ≤ Real.sqrt (763393 / 4) ∧
      Real.sqrt (763393 / 4) < 43686185 / 100000 ∧
      (1793 : ℝ) / 4 = 44825 / 100 ∧ (763393 : ℝ) / 4 = 19084825 / 100) ∧
    (SlotsFloat64.Stats Real.sqrt ([2, 1, 5, 4, 3, 6, 9, 8, 7, 10] : List ℝ) = some
      { stats := some
          { Len := 10, Mean := 11 / 2, StdDev := Real.sqrt (55 / 6), Variance := 55 / 6,
            Minimum := 1, Maximum := 10,
            Percentile25 := 3, Percentile50 := 6, Percentile75 := 8, Percentile95 := 10,
            Percentile99 := 10 }
        err := none
        slots := [2, 1, 5, 4, 3, 6, 9, 8, 7, 10] } ∧
      (302765 : ℝ) / 100000 ≤ Real.sqrt (55 / 6) ∧ Real.sqrt (55 / 6) < 302775 / 100000 ∧
      (916665 : ℝ) / 100000 ≤ 55 / 6 ∧ (55 : ℝ) / 6 < 916675 / 100000) := by
  have r1 := sqrt_rounds (1 / 2) (70705 / 100000) (70715 / 100000)
    (by norm_num) (by norm_num) (by norm_num) (by norm_num)
  have r2 := sqrt_rounds (5 / 3) (129095 / 100000) (129105 / 100000)
    (by norm_num) (by norm_num) (by norm_num) (by norm_num)
  have r3 := sqrt_rounds (763393 / 4) (43686175 / 100000) (43686185 / 100000)
    (by norm_num) (by norm_num) (by norm_num) (by norm_num)
  have r4 := sqrt_rounds (55 / 6) (302765 / 100000) (302775 / 100000)
    (by norm_num) (by norm_num) (by norm_num) (by norm_num)
  refine ⟨statTests_0, ⟨statTests_1, r1.1, r1.2⟩, ⟨statTests_2, r2.1, r2.2, ?_, ?_⟩,
    ⟨statTests_3, r3.1, r3.2, ?_, ?_⟩, ⟨statTests_4, r4.1, r4.2, ?_, ?_⟩⟩ <;> norm_num

end LiteralTests

/-! ## Lemmas on the target-level method -/

section TargetLemmas

variable {α : Type} [LinearOrderedField α]

theorem log2Fuel_eq (fuel n : Nat) (h : n ≤ fuel) : log2Fuel fuel n = Nat.log2 n := by
  induction fuel generalizing n with
  | zero =>
    have h0 : n = 0 := by omega
    subst h0
    simp [log2Fuel, Nat.log2]
  | succ f ih =>
    unfold log2Fuel
    rw [Nat.log2]
    by_cases h2 : n < 2
    · have h3 : ¬ n ≥ 2 := by omega
      simp [h2, h3]
    · have h3 : n ≥ 2 := by omega
      simp only [h2, h3, if_true, if_false]
      rw [ih (n / 2) (by omega)]

theorem log2Nat_eq (n : Nat) : log2Nat n = Nat.log2 n :=
  log2Fuel_eq n n (le_refl _)

/-- The loop of `isqrt` keeps `r * r ≤ n < (r + 2 ^ k) * (r + 2 ^ k)`. -/
theorem isqrtAux_spec (n k r : Nat) (h1 : r * r ≤ n) (h2 : n < (r + 2 ^ k) * (r + 2 ^ k)) :
    isqrtAux n k r * isqrtAux n k r ≤ n ∧ n < (isqrtAux n k r + 1) * (isqrtAux n k r + 1) := by
  induction k generalizing r with
  | zero => simpa [isqrtAux] using ⟨h1, h2⟩
  | succ k ih =>
    unfold isqrtAux
    split
    · rename_i hc
      apply ih _ hc
      have e : r + 2 ^ k + 2 ^ k = r + 2 ^ (k + 1) := by rw [pow_succ]; omega
      rw [e]
      exact h2
    · rename_i hc
      exact ih r h1 (by omega)

/-- The value `isqrt n` is the integer square root of `n`. -/
theorem isqrt_spec (n : Nat) :
    isqrt n * isqrt n ≤ n ∧ n < (isqrt n + 1) * (isqrt n + 1) := by
  apply isqrtAux_spec
  · simp
  · have h1 : n < 2 ^ (Nat.log2 n + 1) := Nat.lt_log2_self
    have h2 : Nat.log2 n + 1 ≤ 2 * (log2Nat n / 2 + 1) := by
      rw [log2Nat_eq]
      omega
    have h3 : 2 ^ (Nat.log2 n + 1) ≤ 2 ^ (2 * (log2Nat n / 2 + 1)) :=
      Nat.pow_le_pow_right (by omega) h2
    have h4 : (0 + 2 ^ (log2Nat n / 2 + 1)) * (0 + 2 ^ (log2Nat n / 2 + 1))
        = 2 ^ (2 * (log2Nat n / 2 + 1)) := by
      rw [Nat.zero_add, ← pow_add]
      congr 1
      omega
    rw [h4]
    omega

/-- The value `roundHalfEven n d` is an integer nearest to `n / d`: it differs
from it by at most one half. -/
theorem roundHalfEven_nearest (n d : Nat) (hd : 0 < d) :
    2 * (d * roundHalfEven n d) ≤ 2 * n + d ∧ 2 * n ≤ 2 * (d * roundHalfEven n d) + d := by
  have hn := Nat.div_add_mod n d
  have hr := Nat.mod_lt n hd
  unfold roundHalfEven
  simp only
  generalize n / d = q at *
  generalize n % d = r at *
  have e : d * (q + 1) = d * q + d := by ring
  split
  · omega
  · split
    · rw [e]; omega
    · split
      · omega
      · rw [e]; omega

theorem wrapInt_of_fit (bits : Nat) (x : Int) (hbits : 0 < bits) (h0 : 0 ≤ x)
    (hx : x ≤ maxInt bits) : wrapInt bits x = x := by
  unfold maxInt at hx
  unfold wrapInt
  have hp : (2 : Int) ^ bits = 2 * 2 ^ (bits - 1) := by
    have : bits = (bits - 1) + 1 := by omega
    nth_rewrite 1 [this]
    rw [pow_succ]
    ring
  have hpos : (0 : Int) < 2 ^ (bits - 1) := by positivity
  rw [Int.emod_eq_of_lt (by omega) (by omega)]
  omega

theorem index_natCast {β : Type} (h : Heap β) (k : Nat) : h.index (k : Int) = h.read k := by
  unfold Heap.index
  have : ¬ ((k : Int) < 0) := by omega
  simp [this]

theorem index_neg {β : Type} (h : Heap β) (i : Int) (hi : i < 0) : h.index i = none := by
  unfold Heap.index
  simp [hi]

theorem tdiv_wrap_of_fit (bits n p : Nat) (hbits : 0 < bits)
    (hfit : ((n * p : Nat) : Int) ≤ maxInt bits) :
    Int.tdiv (wrapInt bits ((n : Int) * (p : Int))) 100 = ((n * p / 100 : Nat) : Int) := by
  have h : ((n : Int) * (p : Int)) = ((n * p : Nat) : Int) := by push_cast; ring
  rw [h, wrapInt_of_fit bits _ hbits (by omega) hfit]
  rfl

theorem rangeLoopOn_eq {β : Type} (T : Target β) (vs : List β) (i : Nat) (s q : β) :
    rangeLoopOn T vs i ((List.range i).map some ++ List.replicate vs.length none, s, q)
      = some ((List.range (i + vs.length)).map some,
          vs.foldl (fun s v => T.add s v) s, vs.foldl (fun q v => T.add q (T.mul v v)) q) := by
  induction vs generalizing i s q with
  | nil => simp [rangeLoopOn]
  | cons v vs ih =>
    have hset : ((List.range i).map some ++ List.replicate (v :: vs).length none).set i (some i)
        = (List.range (i + 1)).map some ++ List.replicate vs.length none := by
      have h := set_mid ((List.range i).map some) (List.replicate vs.length none) none (some i)
      simp only [List.length_map, List.length_range] at h
      rw [List.length_cons, List.replicate_succ, h]
      simp [List.range_succ]
    have hlt : i < ((List.range i).map some ++ List.replicate (v :: vs).length none).length := by
      simp only [List.length_append, List.length_map, List.length_range, List.length_replicate,
        List.length_cons]
      omega
    have e : i + 1 + vs.length = i + (v :: vs).length := by
      simp only [List.length_cons]
      omega
    rw [rangeLoopOn, if_pos hlt, hset, ih (i + 1) (T.add s v) (T.add q (T.mul v v)), e]
    simp only [List.foldl_cons]

theorem sortSort_contract (slots : List α) : SortContract sortSort slots := by
  refine ⟨sortedAddrs slots, sortSort_eq slots, sortedAddrs_perm slots, ?_⟩
  exact (sortedAddrs_sorted slots).imp (fun h => not_lt.2 h)

theorem StatsOn_eq (T : Target α) (slots : List α) (hne : slots ≠ [])
    (hbits : 0 < T.intBits) (hfit : ((slots.length * 99 : Nat) : Int) ≤ maxInt T.intBits)
    (hsort : SortContract T.sort slots) :
    SlotsFloat64.StatsOn T slots = some
      { stats := some
          { Len := slots.length
            Mean := T.div (accSumOn T slots) (T.ofInt slots.length)
            StdDev :=
              if T.ofInt slots.length > 1 then
                T.sqrt (T.mul (T.div 1 (T.sub (T.ofInt slots.length) 1))
                  (T.sub (accSumsqOn T slots)
                    (T.mul (T.mul (T.div 1 (T.ofInt slots.length)) (accSumOn T slots))
                      (accSumOn T slots))))
              else 0
            Variance :=
              if T.ofInt slots.length > 1 then
                T.mul (T.div 1 (T.sub (T.ofInt slots.length) 1))
                  (T.sub (accSumsqOn T slots)
                    (T.mul (T.mul (T.div 1 (T.ofInt slots.length)) (accSumOn T slots))
                      (accSumOn T slots)))
              else 0
            Minimum := (sortedVals slots).getD 0 0
            Maximum := (sortedVals slots).getD (slots.length - 1) 0
            Percentile25 := (sortedVals slots).getD ((slots.length * 25) / 100) 0
            Percentile50 := (sortedVals slots).getD ((slots.length * 50) / 100) 0
            Percentile75 := (sortedVals slots).getD ((slots.length * 75) / 100) 0
            Percentile95 := (sortedVals slots).getD ((slots.length * 95) / 100) 0
            Percentile99 := (sortedVals slots).getD ((slots.length * 99) / 100) 0 }
        err := none
        slots := slots } := by
  have hpos : 0 < slots.length := List.length_pos.2 hne
  have hn0 : slots.length ≠ 0 := by omega
  obtain ⟨F, hF, hperm, hasc⟩ := hsort
  have hloop := rangeLoopOn_eq T slots 0 (0 : α) 0
  simp only [List.range_zero, List.map_nil, List.nil_append, Nat.zero_add] at hloop
  have hmax : (0 : Int) ≤ maxInt T.intBits := by
    unfold maxInt
    have : (0 : Int) < 2 ^ (T.intBits - 1) := by positivity
    omega
  have i0 : Heap.index ⟨slots, F.map some⟩ 0 = some ((sortedVals slots).getD 0 0) := by
    have h := index_natCast (⟨slots, F.map some⟩ : Heap α) 0
    simp only [Nat.cast_zero] at h
    rw [h]
    exact read_of_sort_contract slots F hperm hasc 0 hpos
  have imax : Heap.index ⟨slots, F.map some⟩ (wrapInt T.intBits ((slots.length : Int) - 1))
      = some ((sortedVals slots).getD (slots.length - 1) 0) := by
    have e : ((slots.length : Int) - 1) = ((slots.length - 1 : Nat) : Int) := by omega
    rw [e, wrapInt_of_fit _ _ hbits (by omega) (by omega), index_natCast]
    exact read_of_sort_contract slots F hperm hasc _ (by omega)
  have ip : ∀ p : Nat, p ≤ 99 →
      Heap.index ⟨slots, F.map some⟩
          (Int.tdiv (wrapInt T.intBits ((slots.length : Int) * (p : Int))) 100)
        = some ((sortedVals slots).getD ((slots.length * p) / 100) 0) := by
    intro p hp
    have hle : slots.length * p ≤ slots.length * 99 := Nat.mul_le_mul_left _ hp
    have hlt : slots.length * p / 100 < slots.length := by
      have h1 : slots.length * p / 100 ≤ slots.length * 99 / 100 := Nat.div_le_div_right hle
      omega
    rw [tdiv_wrap_of_fit _ _ _ hbits (by omega), index_natCast]
    exact read_of_sort_contract slots F hperm hasc _ hlt
  have i25 := ip 25 (by omega)
  have i50 := ip 50 (by omega)
  have i75 := ip 75 (by omega)
  have i95 := ip 95 (by omega)
  have i99 := ip 99 (by omega)
  simp only [Nat.cast_ofNat] at i25 i50 i75 i95 i99
  unfold SlotsFloat64.StatsOn
  simp only [hn0, if_false, hloop, hF, i0, imax, i25, i50, i75, i95, i99,
    Option.bind_eq_bind, Option.some_bind, Option.pure_def, bind_pure_comp, Stats.zero]
  by_cases h1 : T.ofInt slots.length > 1
  · simp [h1, accSumOn, accSumsqOn, imax, i25, i50, i75, i95, i99]
  · simp [h1, accSumOn, accSumsqOn, imax, i25, i50, i75, i95, i99]

theorem StatsOn_exact (sqrt : α → α) (slots : List α)
    (hfit : ((slots.length * 99 : Nat) : Int) ≤ maxInt 64) :
    SlotsFloat64.StatsOn (Target.exact sqrt) slots = SlotsFloat64.Stats sqrt slots := by
  by_cases hne : slots = []
  · subst hne
    simp [SlotsFloat64.StatsOn, SlotsFloat64.Stats]
  · have hbits : 0 < (Target.exact sqrt).intBits := by
      show 0 < 64
      omega
    rw [StatsOn_eq (Target.exact sqrt) slots hne hbits hfit (sortSort_contract slots),
      Stats_eq sqrt slots hne]
    rfl

theorem index_of_contract (slots : List α) (F : List Nat)
    (hperm : F.Perm (List.range slots.length))
    (hasc : F.Pairwise (fun a b => ¬ key slots b < key slots a)) (i : Int) :
    Heap.index ⟨slots, F.map some⟩ i
      = if i < 0 then none
        else if i.toNat < slots.length then some ((sortedVals slots).getD i.toNat 0) else none := by
  unfold Heap.index
  by_cases hi : i < 0
  · simp [hi]
  · simp only [hi, if_false]
    by_cases hk : i.toNat < slots.length
    · simp only [hk, if_true]
      exact read_of_sort_contract slots F hperm hasc _ hk
    · simp only [hk, if_false]
      have hlen : F.length = slots.length := by simpa using hperm.length_eq
      have hge : (F.map some).length ≤ i.toNat := by
        rw [List.length_map]
        omega
      simp [Heap.read, List.getElem?_eq_none hge]

theorem withSort_add {β : Type} (T : Target β) (srt : Heap β → Option (Heap β)) :
    (T.withSort srt).add = T.add := rfl

theorem withSort_sub {β : Type} (T : Target β) (srt : Heap β → Option (Heap β)) :
    (T.withSort srt).sub = T.sub := rfl

theorem withSort_mul {β : Type} (T : Target β) (srt : Heap β → Option (Heap β)) :
    (T.withSort srt).mul = T.mul := rfl

theorem withSort_div {β : Type} (T : Target β) (srt : Heap β → Option (Heap β)) :
    (T.withSort srt).div = T.div := rfl

theorem withSort_sqrt {β : Type} (T : Target β) (srt : Heap β → Option (Heap β)) :
    (T.withSort srt).sqrt = T.sqrt := rfl

theorem withSort_ofInt {β : Type} (T : Target β) (srt : Heap β → Option (Heap β)) :
    (T.withSort srt).ofInt = T.ofInt := rfl

theorem withSort_intBits {β : Type} (T : Target β) (srt : Heap β → Option (Heap β)) :
    (T.withSort srt).intBits = T.intBits := rfl

theorem withSort_sort {β : Type} (T : Target β) (srt : Heap β → Option (Heap β)) :
    (T.withSort srt).sort = srt := rfl

theorem StatsOn_sort_irrelevant (T : Target α) (srt1 srt2 : Heap α → Option (Heap α))
    (slots : List α) (h1 : SortContract srt1 slots) (h2 : SortContract srt2 slots) :
    SlotsFloat64.StatsOn (T.withSort srt1) slots = SlotsFloat64.StatsOn (T.withSort srt2) slots := by
  obtain ⟨F1, hF1, hp1, ha1⟩ := h1
  obtain ⟨F2, hF2, hp2, ha2⟩ := h2
  have hloop1 := rangeLoopOn_eq (T.withSort srt1) slots 0 (0 : α) 0
  have hloop2 := rangeLoopOn_eq (T.withSort srt2) slots 0 (0 : α) 0
  simp only [List.range_zero, List.map_nil, List.nil_append, Nat.zero_add, withSort_add,
    withSort_mul] at hloop1 hloop2
  have hidx : Heap.index (⟨slots, F1.map some⟩ : Heap α) = Heap.index ⟨slots, F2.map some⟩ := by
    funext i
    rw [index_of_contract slots F1 hp1 ha1, index_of_contract slots F2 hp2 ha2]
  unfold SlotsFloat64.StatsOn
  by_cases hn0 : slots.length = 0
  · simp [hn0]
  · simp only [hn0, if_false, hloop1, hloop2, withSort_add, withSort_sub, withSort_mul,
      withSort_div, withSort_sqrt, withSort_ofInt, withSort_intBits, withSort_sort, hF1, hF2, hidx,
      Option.bind_eq_bind, Option.some_bind, Option.pure_def, bind_pure_comp, Stats.zero]

/-- The fields of the summary that are read from the sorted pointers do not
depend on the arithmetic: on every target on which `count * 99` fits an `int`,
`Len`, `Minimum`, `Maximum` and the five percentiles are those of the exact
reading. -/
theorem StatsOn_order_fields (T : Target α) (sqrt : α → α) (slots : List α) (hne : slots ≠ [])
    (hbits : 0 < T.intBits) (hfit : ((slots.length * 99 : Nat) : Int) ≤ maxInt T.intBits)
    (hsort : SortContract T.sort slots) :
    ∃ st st', SlotsFloat64.StatsOn T slots = some { stats := some st, err := none, slots := slots } ∧
      SlotsFloat64.Stats sqrt slots = some { stats := some st', err := none, slots := slots } ∧
      st.Len = st'.Len ∧ st.Minimum = st'.Minimum ∧ st.Maximum = st'.Maximum ∧
      st.Percentile25 = st'.Percentile25 ∧ st.Percentile50 = st'.Percentile50 ∧
      st.Percentile75 = st'.Percentile75 ∧ st.Percentile95 = st'.Percentile95 ∧
      st.Percentile99 = st'.Percentile99 :=
  ⟨_, _, StatsOn_eq T slots hne hbits hfit hsort, Stats_eq sqrt slots hne,
    rfl, rfl, rfl, rfl, rfl, rfl, rfl, rfl⟩

theorem index_percentile (slots : List α) (F : List Nat)
    (hperm : F.Perm (List.range slots.length))
    (hasc : F.Pairwise (fun a b => ¬ key slots b < key slots a))
    (bits : Nat) (hbits : 0 < bits) (p : Nat) (hp : p ≤ 99) (hpos : 0 < slots.length)
    (hfit : ((slots.length * p : Nat) : Int) ≤ maxInt bits) :
    Heap.index ⟨slots, F.map some⟩ (Int.tdiv (wrapInt bits ((slots.length : Int) * (p : Int))) 100)
      = some ((sortedVals slots).getD ((slots.length * p) / 100) 0) := by
  have hle : slots.length * p ≤ slots.length * 99 := Nat.mul_le_mul_left _ hp
  have hlt : slots.length * p / 100 < slots.length := by
    have h1 : slots.length * p / 100 ≤ slots.length * 99 / 100 := Nat.div_le_div_right hle
    omega
  rw [tdiv_wrap_of_fit _ _ _ hbits hfit, index_natCast]
  exact read_of_sort_contract slots F hperm hasc _ hlt

theorem wrap32_index99 :
    wrapInt 32 ((21691755 : Int) * 99) = -2147483551 ∧
      Int.tdiv (wrapInt 32 ((21691755 : Int) * 99)) 100 = -21474835 := by
  decide

theorem StatsOn_wrap32_panics (T : Target α) (slots : List α) (hbits : T.intBits = 32)
    (hlen : slots.length = 21691755) (hsort : SortContract T.sort slots) :
    SlotsFloat64.StatsOn T slots = none := by
  have hpos : 0 < slots.length := by omega
  have hn0 : slots.length ≠ 0 := by omega
  obtain ⟨F, hF, hperm, hasc⟩ := hsort
  have hloop := rangeLoopOn_eq T slots 0 (0 : α) 0
  simp only [List.range_zero, List.map_nil, List.nil_append, Nat.zero_add] at hloop
  have hmaxv : maxInt 32 = 2147483647 := by decide
  have i0 : Heap.index ⟨slots, F.map some⟩ 0 = some ((sortedVals slots).getD 0 0) := by
    have h := index_natCast (⟨slots, F.map some⟩ : Heap α) 0
    simp only [Nat.cast_zero] at h
    rw [h]
    exact read_of_sort_contract slots F hperm hasc 0 hpos
  have imax : Heap.index ⟨slots, F.map some⟩ (wrapInt 32 ((slots.length : Int) - 1))
      = some ((sortedVals slots).getD (slots.length - 1) 0) := by
    have e : ((slots.length : Int) - 1) = ((slots.length - 1 : Nat) : Int) := by omega
    rw [e, wrapInt_of_fit _ _ (by omega) (by omega) (by rw [hmaxv]; omega), index_natCast]
    exact read_of_sort_contract slots F hperm hasc _ (by omega)
  have i25 := index_percentile slots F hperm hasc 32 (by omega) 25 (by omega) hpos
    (by rw [hmaxv]; omega)
  have i50 := index_percentile slots F hperm hasc 32 (by omega) 50 (by omega) hpos
    (by rw [hmaxv]; omega)
  have i75 := index_percentile slots F hperm hasc 32 (by omega) 75 (by omega) hpos
    (by rw [hmaxv]; omega)
  have i95 := index_percentile slots F hperm hasc 32 (by omega) 95 (by omega) hpos
    (by rw [hmaxv]; omega)
  have i99 : Heap.index ⟨slots, F.map some⟩
      (Int.tdiv (wrapInt 32 ((slots.length : Int) * 99)) 100) = none := by
    apply index_neg
    rw [hlen]
    have h := wrap32_index99.2
    simp only [Nat.cast_ofNat]
    rw [h]
    decide
  simp only [Nat.cast_ofNat] at i25 i50 i75 i95
  unfold SlotsFloat64.StatsOn
  simp only [hn0, if_false, hloop, hF, hbits, i0, imax, i25, i50, i75, i95, i99,
    Option.bind_eq_bind, Option.some_bind, Option.none_bind, Option.pure_def, bind_pure_comp,
    Stats.zero]

theorem sortSort_of_valid (slots : List α) (l : List Nat)
    (hv : ∀ a ∈ l, a < slots.length) :
    ∃ F : List Nat, sortSort ⟨slots, l.map some⟩ = some ⟨slots, F.map some⟩ ∧ F.Perm l ∧
      F.Pairwise (fun a b => key slots a ≤ key slots b) := by
  cases l with
  | nil => exact ⟨[], by simp [sortSort, sortFloat64.Len, insertionSortLoop], List.Perm.refl _,
      List.Pairwise.nil⟩
  | cons p Q =>
    have h := insertionSortLoop_eq slots [p] Q
      (fun a ha => hv a (by simp at ha; simp [ha]))
      (fun a ha => hv a (List.mem_cons_of_mem _ ha))
    refine ⟨sortPure slots [p] Q, ?_, sortPure_perm slots [p] Q,
      sortPure_sorted slots _ _ (List.pairwise_singleton _ _)⟩
    simpa [sortSort, sortFloat64.Len] using h

theorem sortSortRev_contract (slots : List α) : SortContract sortSortRev slots := by
  have hv : ∀ a ∈ (List.range slots.length).reverse, a < slots.length :=
    fun a ha => List.mem_range.1 (List.mem_reverse.1 ha)
  obtain ⟨F, hF, hperm, hasc⟩ := sortSort_of_valid slots _ hv
  refine ⟨F, ?_, hperm.trans (List.reverse_perm _), hasc.imp (fun h => not_lt.2 h)⟩
  unfold sortSortRev
  simp only [← List.map_reverse]
  exact hF

theorem sortSortRev_ne_sortSort :
    sortSortRev (⟨[1, 1], [some 0, some 1]⟩ : Heap ℚ) = some ⟨[1, 1], [some 1, some 0]⟩ ∧
      sortSort (⟨[1, 1], [some 0, some 1]⟩ : Heap ℚ) = some ⟨[1, 1], [some 0, some 1]⟩ := by
  decide!

end TargetLemmas

/-! ## Evaluation on the 64-bit float64 target -/

section Float64Tests

theorem go64_statTests_0 :
    SlotsFloat64.StatsOn Target.go64 [1, 1] = some
      { stats := some
          { Len := 2, Mean := 1, StdDev := 0, Variance := 0, Minimum := 1, Maximum := 1,
            Percentile25 := 1, Percentile50 := 1, Percentile75 := 1, Percentile95 := 1,
            Percentile99 := 1 }
        err := none
        slots := [1, 1] } := by
  decide!

theorem go64_statTests_1 :
    SlotsFloat64.StatsOn Target.go64 [2, 1] = some
      { stats := some
          { Len := 2, Mean := 3 / 2, StdDev := 6369051672525773 / 9007199254740992,
            Variance := 1 / 2, Minimum := 1, Maximum := 2,
            Percentile25 := 1, Percentile50 := 2, Percentile75 := 2, Percentile95 := 2,
            Percentile99 := 2 }
        err := none
        slots := [2, 1] } := by
  decide!

theorem go64_statTests_2 :
    SlotsFloat64.StatsOn Target.go64 [4, 3, 2, 1] = some
      { stats := some
          { Len := 4, Mean := 5 / 2, StdDev := 5814122118263953 / 4503599627370496,
            Variance := 3752999689475413 / 2251799813685248, Minimum := 1, Maximum := 4,
            Percentile25 := 2, Percentile50 := 3, Percentile75 := 4, Percentile95 := 4,
            Percentile99 := 4 }
        err := none
        slots := [4, 3, 2, 1] } := by
  decide!

theorem go64_statTests_3 :
    SlotsFloat64.StatsOn Target.go64 [256, 1, 1024, 512] = some
      { stats := some
          { Len := 4, Mean := 1793 / 4, StdDev := 7685354417698413 / 17592186044416,
            Variance := 763393 / 4, Minimum := 1, Maximum := 1024,
            Percentile25 := 256, Percentile50 := 512, Percentile75 := 1024,
            Percentile95 := 1024, Percentile99 := 1024 }
        err := none
        slots := [256, 1, 1024, 512] } := by
  decide!

theorem go64_statTests_4 :
    SlotsFloat64.StatsOn Target.go64 [2, 1, 5, 4, 3, 6, 9, 8, 7, 10] = some
      { stats := some
          { Len := 10, Mean := 11 / 2, StdDev := 6817662503260807 / 2251799813685248,
            Variance := 5160374573028693 / 562949953421312, Minimum := 1, Maximum := 10,
            Percentile25 := 3, Percentile50 := 6, Percentile75 := 8, Percentile95 := 10,
            Percentile99 := 10 }
        err := none
        slots := [2, 1, 5, 4, 3, 6, 9, 8, 7, 10] } := by
  decide!

theorem go64_tenths :
    roundFloat64 (1 / 10) = 3602879701896397 / 36028797018963968 ∧
    SlotsFloat64.StatsOn Target.go64 (List.replicate 10 (roundFloat64 (1 / 10))) = some
      { stats := some
          { Len := 10, Mean := 7205759403792793 / 72057594037927936,
            StdDev := 6004799503160661 / 2417851639229258349412352,
            Variance := 2001599834386887 / 324518553658426726783156020576256,
            Minimum := 3602879701896397 / 36028797018963968,
            Maximum := 3602879701896397 / 36028797018963968,
            Percentile25 := 3602879701896397 / 36028797018963968,
            Percentile50 := 3602879701896397 / 36028797018963968,
            Percentile75 := 3602879701896397 / 36028797018963968,
            Percentile95 := 3602879701896397 / 36028797018963968,
            Percentile99 := 3602879701896397 / 36028797018963968 }
        err := none
        slots := List.replicate 10 (3602879701896397 / 36028797018963968) } := by
  decide!

theorem go64_sqrt_values :
    sqrtFloat64 (1 / 2) = 6369051672525773 / 9007199254740992 ∧
    sqrtFloat64 (3752999689475413 / 2251799813685248) = 5814122118263953 / 4503599627370496 ∧
    sqrtFloat64 (763393 / 4) = 7685354417698413 / 17592186044416 ∧
    sqrtFloat64 (5160374573028693 / 562949953421312) = 6817662503260807 / 2251799813685248 ∧
    sqrtFloat64 0 = 0 := by
  decide!

end Float64Tests

/-! ## Claims that depend on the target -/

section TargetClaims

variable {α : Type} [LinearOrderedField α]

/-- C6, as stated, fails in `float64`: on `[2, 1]` the 64-bit target returns
`Variance = 0.5 ≥ 0` and `StdDev = 0.7071067811865476`, whose square is not
`0.5`, neither exactly nor after rounding the product. -/
theorem C6_counterexample :
    ∃ st, SlotsFloat64.StatsOn Target.go64 [2, 1]
        = some { stats := some st, err := none, slots := [2, 1] } ∧
      0 ≤ st.Variance ∧ st.StdDev ^ 2 ≠ st.Variance ∧
      Target.go64.mul st.StdDev st.StdDev ≠ st.Variance := by
  refine ⟨_, go64_statTests_1, ?_, ?_, ?_⟩
  · norm_num
  · norm_num
  · decide!

/-- C6, amended: over exact arithmetic (the reals, with the real square root as
`math.Sqrt`), for every input of at least two samples `Stats` succeeds with
`Variance = (1 / (count - 1)) * (sumsq - (1 / count) * sum ^ 2)`, `sum` and
`sumsq` being the samples and their squares added up in input order, and with
`StdDev` the square root of that `Variance`: `StdDev ≥ 0`, and
`StdDev ^ 2 = Variance` whenever `Variance ≥ 0`. -/
theorem C6_variance_formula (slots : List ℝ) (h2 : 2 ≤ slots.length) :
    ∃ st, SlotsFloat64.Stats Real.sqrt slots
        = some { stats := some st, err := none, slots := slots } ∧
      st.Variance = (1 / ((slots.length : ℝ) - 1))
        * (slots.foldl (fun q v => q + v * v) 0
            - (1 / (slots.length : ℝ)) * (slots.foldl (fun s v => s + v) 0) ^ 2) ∧
      st.StdDev = Real.sqrt st.Variance ∧ 0 ≤ st.StdDev ∧
      (0 ≤ st.Variance → st.StdDev ^ 2 = st.Variance) := by
  obtain ⟨st, hst, hvar, hsd, hsq⟩ := variance_formula_of_sqrt Real.sqrt slots h2
    (fun x hx => ⟨Real.sqrt_nonneg x, Real.sq_sqrt hx⟩)
  refine ⟨st, hst, hvar, hsd, ?_, fun h => (hsq h).2⟩
  rw [hsd]
  exact Real.sqrt_nonneg _

/-- C6, amended, at the input `[2, 1]`. -/
theorem C6_variance_formula_witness :
    2 ≤ ([2, 1] : List ℝ).length ∧
    ∃ st, SlotsFloat64.Stats Real.sqrt ([2, 1] : List ℝ)
        = some { stats := some st, err := none, slots := [2, 1] } ∧
      st.Variance = (1 / ((([2, 1] : List ℝ).length : ℝ) - 1))
        * (([2, 1] : List ℝ).foldl (fun q v => q + v * v) 0
            - (1 / (([2, 1] : List ℝ).length : ℝ))
              * (([2, 1] : List ℝ).foldl (fun s v => s + v) 0) ^ 2) ∧
      st.StdDev = Real.sqrt st.Variance ∧ 0 ≤ st.StdDev ∧
      (0 ≤ st.Variance → st.StdDev ^ 2 = st.Variance) :=
  ⟨by simp, C6_variance_formula [2, 1] (by simp)⟩

/-- C11, as stated, fails where `int` is 32 bits wide: for 21691755 samples
`count * 99` wraps around to `-2147483551`, the index of `Percentile99` is
`-21474835`, and `Stats` panics on that read. -/
theorem C11_counterexample :
    (List.replicate 21691755 (0 : ℚ)).length = 21691755 ∧
    wrapInt 32 ((21691755 : Int) * 99) = -2147483551 ∧
    Int.tdiv (wrapInt 32 ((21691755 : Int) * 99)) 100 = -21474835 ∧
    SlotsFloat64.StatsOn Target.go32 (List.replicate 21691755 (0 : ℚ)) = none :=
  ⟨List.length_replicate _ _, wrap32_index99.1, wrap32_index99.2,
    StatsOn_wrap32_panics Target.go32 _ rfl (List.length_replicate _ _) (sortSort_contract _)⟩

/-- C11, amended: for every non-empty input with `count * 99` not above the
largest `int` of the target, every index `Stats` uses on the sorted pointers is
in bounds: `0`, `count - 1` and, for every `p ≤ 99` (so for 25, 50, 75, 95 and
99), the `int` value `(count * p) / 100`, which is then the exact quotient; and
`Stats` returns without an out-of-range access (a summary and the nil error,
not a panic). -/
theorem C11_indices_in_bounds (T : Target α) (slots : List α) (hne : slots ≠ [])
    (hbits : 0 < T.intBits) (hfit : ((slots.length * 99 : Nat) : Int) ≤ maxInt T.intBits)
    (hsort : SortContract T.sort slots) :
    ((0 : Int) < slots.length ∧
      0 ≤ wrapInt T.intBits ((slots.length : Int) - 1) ∧
      wrapInt T.intBits ((slots.length : Int) - 1) < slots.length ∧
      ∀ p : Nat, p ≤ 99 →
        Int.tdiv (wrapInt T.intBits ((slots.length : Int) * (p : Int))) 100
          = ((slots.length * p / 100 : Nat) : Int) ∧
        0 ≤ Int.tdiv (wrapInt T.intBits ((slots.length : Int) * (p : Int))) 100 ∧
        Int.tdiv (wrapInt T.intBits ((slots.length : Int) * (p : Int))) 100 < slots.length) ∧
    ∃ st, SlotsFloat64.StatsOn T slots
      = some { stats := some st, err := none, slots := slots } := by
  have hpos : 0 < slots.length := List.length_pos.2 hne
  refine ⟨⟨by omega, ?_, ?_, ?_⟩, _, StatsOn_eq T slots hne hbits hfit hsort⟩
  · rw [wrapInt_of_fit _ _ hbits (by omega) (by omega)]
    omega
  · rw [wrapInt_of_fit _ _ hbits (by omega) (by omega)]
    omega
  · intro p hp
    have hle : slots.length * p ≤ slots.length * 99 := Nat.mul_le_mul_left _ hp
    have hlt : slots.length * p / 100 < slots.length := by
      have h1 : slots.length * p / 100 ≤ slots.length * 99 / 100 := Nat.div_le_div_right hle
      omega
    rw [tdiv_wrap_of_fit _ _ _ hbits (by omega)]
    refine ⟨rfl, by omega, by omega⟩

/-- C11, amended, at the ten-sample test input on the 64-bit target. -/
theorem C11_indices_in_bounds_witness :
    ([2, 1, 5, 4, 3, 6, 9, 8, 7, 10] : List ℚ) ≠ [] ∧ 0 < Target.go64.intBits ∧
    ((([2, 1, 5, 4, 3, 6, 9, 8, 7, 10] : List ℚ).length * 99 : Nat) : Int)
      ≤ maxInt Target.go64.intBits ∧
    SortContract Target.go64.sort ([2, 1, 5, 4, 3, 6, 9, 8, 7, 10] : List ℚ) ∧
    (((0 : Int) < ([2, 1, 5, 4, 3, 6, 9, 8, 7, 10] : List ℚ).length ∧
      0 ≤ wrapInt Target.go64.intBits
        ((([2, 1, 5, 4, 3, 6, 9, 8, 7, 10] : List ℚ).length : Int) - 1) ∧
      wrapInt Target.go64.intBits
          ((([2, 1, 5, 4, 3, 6, 9, 8, 7, 10] : List ℚ).length : Int) - 1)
        < ([2, 1, 5, 4, 3, 6, 9, 8, 7, 10] : List ℚ).length ∧
      ∀ p : Nat, p ≤ 99 →
        Int.tdiv (wrapInt Target.go64.intBits
            ((([2, 1, 5, 4, 3, 6, 9, 8, 7, 10] : List ℚ).length : Int) * (p : Int))) 100
          = ((([2, 1, 5, 4, 3, 6, 9, 8, 7, 10] : List ℚ).length * p / 100 : Nat) : Int) ∧
        0 ≤ Int.tdiv (wrapInt Target.go64.intBits
            ((([2, 1, 5, 4, 3, 6, 9, 8, 7, 10] : List ℚ).length : Int) * (p : Int))) 100 ∧
        Int.tdiv (wrapInt Target.go64.intBits
            ((([2, 1, 5, 4, 3, 6, 9, 8, 7, 10] : List ℚ).length : Int) * (p : Int))) 100
          < ([2, 1, 5, 4, 3, 6, 9, 8, 7, 10] : List ℚ).length) ∧
    ∃ st, SlotsFloat64.StatsOn Target.go64 [2, 1, 5, 4, 3, 6, 9, 8, 7, 10]
      = some { stats := some st, err := none, slots := [2, 1, 5, 4, 3, 6, 9, 8, 7, 10] }) :=
  ⟨by simp, by decide, by decide, sortSort_contract _,
    C11_indices_in_bounds Target.go64 [2, 1, 5, 4, 3, 6, 9, 8, 7, 10] (by simp) (by decide)
      (by decide) (sortSort_contract _)⟩

/-- C13, as stated, fails in `float64`: on ten samples `0.1` the 64-bit target
returns `Mean = 0.09999999999999999`, which is not the sum of the samples
divided by their number and lies below every sample. -/
theorem C13_counterexample :
    ∃ st, SlotsFloat64.StatsOn Target.go64 (List.replicate 10 (roundFloat64 (1 / 10)))
        = some { stats := some st, err := none,
                 slots := List.replicate 10 (3602879701896397 / 36028797018963968) } ∧
      st.Mean ≠ (List.replicate 10 (roundFloat64 (1 / 10))).sum / 10 ∧
      st.Mean < st.Minimum := by
  refine ⟨_, go64_tenths.2, ?_, ?_⟩
  · rw [go64_tenths.1]
    norm_num [List.replicate]
  · norm_num

/-- C16, as stated, fails in `float64`: on `[4, 3, 2, 1]` the 64-bit target
returns `Variance = 1.6666666666666665` (the binary64 value
`3752999689475413 / 2 ^ 51`), not `5/3`, and on the ten-sample input
`9.166666666666666`, not `55/6`. -/
theorem C16_counterexample :
    (∃ st, SlotsFloat64.StatsOn Target.go64 [4, 3, 2, 1]
        = some { stats := some st, err := none, slots := [4, 3, 2, 1] } ∧
      st.Variance ≠ 5 / 3) ∧
    (∃ st, SlotsFloat64.StatsOn Target.go64 [2, 1, 5, 4, 3, 6, 9, 8, 7, 10]
        = some { stats := some st, err := none, slots := [2, 1, 5, 4, 3, 6, 9, 8, 7, 10] } ∧
      st.Variance ≠ 55 / 6) := by
  refine ⟨⟨_, go64_statTests_2, ?_⟩, ⟨_, go64_statTests_4, ?_⟩⟩ <;> norm_num

/-- C16, amended: on the five inputs of `statTests` the 64-bit `float64` target
returns the nil error and a summary that agrees with the expected one at the
four decimals the test compares.  `Len`, `Mean` (1, 1.5, 2.5, 448.25, 5.5),
`Minimum`, `Maximum` and the percentiles are exactly as listed; `Variance` is
exactly 0, 0.5 and 190848.25 on `[1, 1]`, `[2, 1]` and `[256, 1, 1024, 512]`,
and on `[4, 3, 2, 1]` and the ten-sample input it is the binary64 value
1.6666666666666665 and 9.166666666666666, within 0.00005 of 1.6667 and 9.1667;
`StdDev` is `math.Sqrt` of the `Variance`: 0 on `[1, 1]`, and within 0.00005 of
0.7071, 1.2910, 436.8618 and 3.0277 on the others. -/
theorem C16_literal_tests :
    (SlotsFloat64.StatsOn Target.go64 [1, 1] = some
      { stats := some
          { Len := 2, Mean := 1, StdDev := 0, Variance := 0, Minimum := 1, Maximum := 1,
            Percentile25 := 1, Percentile50 := 1, Percentile75 := 1, Percentile95 := 1,
            Percentile99 := 1 }
        err := none
        slots := [1, 1] }) ∧
    (SlotsFloat64.StatsOn Target.go64 [2, 1] = some
      { stats := some
          { Len := 2, Mean := 3 / 2, StdDev := 6369051672525773 / 9007199254740992,
            Variance := 1 / 2, Minimum := 1, Maximum := 2,
            Percentile25 := 1, Percentile50 := 2, Percentile75 := 2, Percentile95 := 2,
            Percentile99 := 2 }
        err := none
        slots := [2, 1] } ∧
      Target.go64.sqrt (1 / 2) = 6369051672525773 / 9007199254740992 ∧
      (70705 : ℚ) / 100000 < 6369051672525773 / 9007199254740992 ∧
      (6369051672525773 : ℚ) / 9007199254740992 < 70715 / 100000) ∧
    (SlotsFloat64.StatsOn Target.go64 [4, 3, 2, 1] = some
      { stats := some
          { Len := 4, Mean := 5 / 2, StdDev := 5814122118263953 / 4503599627370496,
            Variance := 3752999689475413 / 2251799813685248, Minimum := 1, Maximum := 4,
            Percentile25 := 2, Percentile50 := 3, Percentile75 := 4, Percentile95 := 4,
            Percentile99 := 4 }
        err := none
        slots := [4, 3, 2, 1] } ∧
      Target.go64.sqrt (3752999689475413 / 2251799813685248)
        = 5814122118263953 / 4503599627370496 ∧
      (166665 : ℚ) / 100000 < 3752999689475413 / 2251799813685248 ∧
      (3752999689475413 : ℚ) / 2251799813685248 < 166675 / 100000 ∧
      (129095 : ℚ) / 100000 < 5814122118263953 / 4503599627370496 ∧
      (5814122118263953 : ℚ) / 4503599627370496 < 129105 / 100000) ∧
    (SlotsFloat64.StatsOn Target.go64 [256, 1, 1024, 512] = some
      { stats := some
          { Len := 4, Mean := 1793 / 4, StdDev := 7685354417698413 / 17592186044416,
            Variance := 763393 / 4, Minimum := 1, Maximum := 1024,
            Percentile25 := 256, Percentile50 := 512, Percentile75 := 1024,
            Percentile95 := 1024, Percentile99 := 1024 }
        err := none
        slots := [256, 1, 1024, 512] } ∧
      Target.go64.sqrt (763393 / 4) = 7685354417698413 / 17592186044416 ∧
      (1793 : ℚ) / 4 = 44825 / 100 ∧ (763393 : ℚ) / 4 = 19084825 / 100 ∧
      (43686175 : ℚ) / 100000 < 7685354417698413 / 17592186044416 ∧
      (7685354417698413 : ℚ) / 17592186044416 < 43686185 / 100000) ∧
    (SlotsFloat64.StatsOn Target.go64 [2, 1, 5, 4, 3, 6, 9, 8, 7, 10] = some
      { stats := some
          { Len := 10, Mean := 11 / 2, StdDev := 6817662503260807 / 2251799813685248,
            Variance := 5160374573028693 / 562949953421312, Minimum := 1, Maximum := 10,
            Percentile25 := 3, Percentile50 := 6, Percentile75 := 8, Percentile95 := 10,
            Percentile99 := 10 }
        err := none
        slots := [2, 1, 5, 4, 3, 6, 9, 8, 7, 10] } ∧
      Target.go64.sqrt (5160374573028693 / 562949953421312)
        = 6817662503260807 / 2251799813685248 ∧
      (916665 : ℚ) / 100000 < 5160374573028693 / 562949953421312 ∧
      (5160374573028693 : ℚ) / 562949953421312 < 916675 / 100000 ∧
      (302765 : ℚ) / 100000 < 6817662503260807 / 2251799813685248 ∧
      (6817662503260807 : ℚ) / 2251799813685248 < 302775 / 100000) := by
  obtain ⟨q1, q2, q3, q4, _⟩ := go64_sqrt_values
  refine ⟨go64_statTests_0, ⟨go64_statTests_1, q1, ?_, ?_⟩,
    ⟨go64_statTests_2, q2, ?_, ?_, ?_, ?_⟩, ⟨go64_statTests_3, q3, ?_, ?_, ?_, ?_⟩,
    ⟨go64_statTests_4, q4, ?_, ?_, ?_, ?_⟩⟩ <;> norm_num

/-- C17: the results of `Stats` are a function of the sample values alone.  On
any target (any `float64` arithmetic and `int` width), whichever
implementations of `sort.Sort` meeting its contract the two calls run (equal
samples may come out in either order), the first and the second call have the
same outcome; the first leaves the slice as it was, and the second call, made
on the slice as left by the first, returns the same summary field by field and
the same error.  The calls do return whenever `count * 99` does not exceed the
largest `int`. -/
theorem C17_second_call_agrees (T : Target α) (srt1 srt2 : Heap α → Option (Heap α))
    (slots : List α) (h1 : SortContract srt1 slots) (h2 : SortContract srt2 slots) :
    SlotsFloat64.StatsOn (T.withSort srt1) slots = SlotsFloat64.StatsOn (T.withSort srt2) slots ∧
    (∀ r, SlotsFloat64.StatsOn (T.withSort srt1) slots = some r →
      r.slots = slots ∧ SlotsFloat64.StatsOn (T.withSort srt2) r.slots = some r) ∧
    (0 < T.intBits → ((slots.length * 99 : Nat) : Int) ≤ maxInt T.intBits →
      ∃ r, SlotsFloat64.StatsOn (T.withSort srt1) slots = some r) := by
  have heq := StatsOn_sort_irrelevant T srt1 srt2 slots h1 h2
  refine ⟨heq, ?_, ?_⟩
  swap
  · intro hbits hfit
    by_cases hne : slots = []
    · subst hne
      exact ⟨{ stats := some (Stats.zero α), err := some Error.EMPTY, slots := [] },
        by simp [SlotsFloat64.StatsOn, Stats.zero]⟩
    · exact ⟨_, StatsOn_eq (T.withSort srt1) slots hne hbits hfit h1⟩
  intro r hr
  have hslots : r.slots = slots := by
    obtain ⟨F1, hF1, _, _⟩ := h1
    have hloop := rangeLoopOn_eq (T.withSort srt1) slots 0 (0 : α) 0
    simp only [List.range_zero, List.map_nil, List.nil_append, Nat.zero_add] at hloop
    unfold SlotsFloat64.StatsOn at hr
    by_cases hn0 : slots.length = 0
    · simp only [hn0, if_true, Option.pure_def, Option.some.injEq] at hr
      rw [← hr]
    · simp only [hn0, if_false, hloop, withSort_sort, hF1, Option.bind_eq_bind,
        Option.some_bind, Option.pure_def, bind_pure_comp] at hr
      simp only [Option.bind_eq_some, Option.map_eq_some'] at hr
      obtain ⟨_, _, _, _, _, _, _, _, _, _, _, _, _, _, hr⟩ := hr
      rw [← Option.some.inj hr]
  rw [hslots, ← heq]
  exact ⟨rfl, hr⟩

/-- C17 at the input `[2, 1, 2, 1]` on the 64-bit `float64` target, the first
call sorting by insertion and the second by insertion on the reversed pointer
slice, which orders equal samples the other way round. -/
theorem C17_second_call_agrees_witness :
    SortContract sortSort ([2, 1, 2, 1] : List ℚ) ∧
    SortContract sortSortRev ([2, 1, 2, 1] : List ℚ) ∧
    (SlotsFloat64.StatsOn (Target.go64.withSort sortSort) [2, 1, 2, 1]
        = SlotsFloat64.StatsOn (Target.go64.withSort sortSortRev) [2, 1, 2, 1] ∧
      (∀ r, SlotsFloat64.StatsOn (Target.go64.withSort sortSort) [2, 1, 2, 1] = some r →
        r.slots = [2, 1, 2, 1] ∧
        SlotsFloat64.StatsOn (Target.go64.withSort sortSortRev) r.slots = some r) ∧
      (0 < Target.go64.intBits →
        ((([2, 1, 2, 1] : List ℚ).length * 99 : Nat) : Int) ≤ maxInt Target.go64.intBits →
        ∃ r, SlotsFloat64.StatsOn (Target.go64.withSort sortSort) [2, 1, 2, 1] = some r)) :=
  ⟨sortSort_contract _, sortSortRev_contract _,
    C17_second_call_agrees Target.go64 sortSort sortSortRev [2, 1, 2, 1]
      (sortSort_contract _) (sortSortRev_contract _)⟩

/-- C18, as stated, fails in `float64`: on ten samples all equal to
`c = 0.1` the 64-bit target returns `Mean = 0.09999999999999999`, not `c`,
while `Minimum`, `Maximum` and the percentiles are `c`. -/
theorem C18_counterexample :
    (∀ x ∈ List.replicate 10 (roundFloat64 (1 / 10)), x = roundFloat64 (1 / 10)) ∧
    ∃ st, SlotsFloat64.StatsOn Target.go64 (List.replicate 10 (roundFloat64 (1 / 10)))
        = some { stats := some st, err := none,
                 slots := List.replicate 10 (3602879701896397 / 36028797018963968) } ∧
      st.Mean ≠ roundFloat64 (1 / 10) ∧ st.Minimum = roundFloat64 (1 / 10) ∧
      st.Maximum = roundFloat64 (1 / 10) := by
  refine ⟨fun x hx => (List.mem_replicate.1 hx).2, _, go64_tenths.2, ?_, ?_, ?_⟩
  · rw [go64_tenths.1]
    norm_num
  · rw [go64_tenths.1]
  · rw [go64_tenths.1]

end TargetClaims

end GoStats
